import Mathlib

/-!
# Outfit recommendation service (`main.go`)

A shallow embedding of the recommendation, outfit-identity, weather and rating
code of `main.go`, followed by the theorems that settle the specification's
claims about it.

Conventions of the embedding:

* a Go `string` is a Lean `String`; its bytes are its UTF-8 encoding;
* a Go `int` is an `Int`;
* a Go `map[string]T` is the list of its entries in the order in which one
  `range` loop enumerates them (keys pairwise distinct);
* a Go `float64` is an `F64`: the rational a finite value denotes, the two
  infinities, or NaN; `+` and `*` round to nearest, ties to even, each on its
  own (a product is rounded before it is added);
* every reply of the outside world (database, HTTP services, environment) is
  an input of the embedded function, and every call made is recorded in a
  trace.
-/

namespace Wardrobe

/-! ## Strings -/

/-- UTF-8 encoding of one code point, as a list of bytes. -/
def utf8EncodeChar (c : Char) : List Nat :=
  let v := c.toNat
  if v < 128 then [v]
  else if v < 2048 then [192 + v / 64, 128 + v % 64]
  else if v < 65536 then [224 + v / 4096, 128 + v / 64 % 64, 128 + v % 64]
  else [240 + v / 262144, 128 + v / 4096 % 64, 128 + v / 64 % 64, 128 + v % 64]

/-- The bytes of a Go string: `[]byte(s)`. -/
def utf8Bytes (s : String) : List Nat :=
  s.data.flatMap utf8EncodeChar

/-- Go's `<=` on strings: lexicographic comparison of the bytes. -/
def stringLE (a b : String) : Prop :=
  utf8Bytes a ≤ utf8Bytes b

instance stringLE.decidable : DecidableRel stringLE :=
  fun a b => inferInstanceAs (Decidable (utf8Bytes a ≤ utf8Bytes b))

/-- The result of `sort.Strings`: the input in increasing order. -/
def sortStrings (l : List String) : List String :=
  l.insertionSort stringLE

/-- The function `strings.Join`. -/
def stringsJoin : List String → String → String
  | [], _ => ""
  | [a], _ => a
  | a :: b :: rest, sep => a ++ sep ++ stringsJoin (b :: rest) sep

/-- The verb `%d` of `fmt.Sprintf` on an `int`. -/
def formatInt : Int → String
  | Int.ofNat n => Nat.repr n
  | Int.negSucc n => "-" ++ Nat.repr (n + 1)

/-- The function `hex.EncodeToString`: two lowercase hexadecimal digits for each byte. -/
def hexEncodeToString (bs : List Nat) : String :=
  String.mk (bs.flatMap fun b => [Nat.digitChar (b / 16), Nat.digitChar (b % 16)])

/-! ## SHA-256 (FIPS 180-4), the function `sha256.Sum256` -/

namespace SHA256

/-- The largest `r` below `2 ^ bits` with `r ^ k ≤ n`, found bit by bit from the top;
`acc` holds the bits already fixed. -/
def iroot (k n : Nat) : Nat → Nat → Nat
  | 0, acc => acc
  | bits + 1, acc =>
    if (acc + 2 ^ bits) ^ k ≤ n then iroot k n bits (acc + 2 ^ bits) else iroot k n bits acc

/-- The first 64 primes. -/
def primes : List Nat := [
  2, 3, 5, 7, 11, 13, 17, 19, 23, 29, 31, 37, 41, 43, 47, 53,
  59, 61, 67, 71, 73, 79, 83, 89, 97, 101, 103, 107, 109, 113, 127, 131,
  137, 139, 149, 151, 157, 163, 167, 173, 179, 181, 191, 193, 197, 199, 211, 223,
  227, 229, 233, 239, 241, 251, 257, 263, 269, 271, 277, 281, 283, 293, 307, 311]

/-- Round constants: the first 32 bits of the fractional parts of the cube roots of the
first 64 primes. -/
def K : List Nat :=
  primes.map fun p => iroot 3 (p * 2 ^ 96) 35 0 % 2 ^ 32

/-- Initial hash value: the first 32 bits of the fractional parts of the square roots of
the first 8 primes. -/
def H0 : List Nat :=
  (primes.take 8).map fun p => iroot 2 (p * 2 ^ 64) 35 0 % 2 ^ 32

/-- Truncation to a 32-bit word. -/
def w32 (x : Nat) : Nat := x % 4294967296

/-- Rotation of a 32-bit word to the right. -/
def rotr (x n : Nat) : Nat := w32 ((x >>> n) ||| (x <<< (32 - n)))

def ch (x y z : Nat) : Nat := (x &&& y) ^^^ ((x ^^^ 0xffffffff) &&& z)

def maj (x y z : Nat) : Nat := (x &&& y) ^^^ (x &&& z) ^^^ (y &&& z)

def bsig0 (x : Nat) : Nat := rotr x 2 ^^^ rotr x 13 ^^^ rotr x 22

def bsig1 (x : Nat) : Nat := rotr x 6 ^^^ rotr x 11 ^^^ rotr x 25

def ssig0 (x : Nat) : Nat := rotr x 7 ^^^ rotr x 18 ^^^ (x >>> 3)

def ssig1 (x : Nat) : Nat := rotr x 17 ^^^ rotr x 19 ^^^ (x >>> 10)

/-- The `n` low bytes of `x`, most significant first. -/
def beBytes : Nat → Nat → List Nat
  | 0, _ => []
  | n + 1, x => (x >>> (8 * n)) % 256 :: beBytes n x

/-- Padding: a `1` bit, zeros, and the bit length on 64 bits, up to a multiple of 64 bytes. -/
def pad (msg : List Nat) : List Nat :=
  msg ++ 128 :: List.replicate ((119 - msg.length % 64) % 64) 0 ++ beBytes 8 (8 * msg.length)

/-- The 32-bit word of four bytes, most significant first. -/
def beWord : List Nat → Nat
  | [a, b, c, d] => ((a * 256 + b) * 256 + c) * 256 + d
  | _ => 0

/-- The first `k` consecutive pieces of `n` elements of a list. -/
def chunks (n : Nat) : Nat → List Nat → List (List Nat)
  | 0, _ => []
  | k + 1, l => l.take n :: chunks n k (l.drop n)

/-- Message schedule, extended by `n` words; the most recent word comes first. -/
def schedule : Nat → List Nat → List Nat
  | 0, ws => ws
  | n + 1, ws =>
    schedule n
      (w32 (ssig1 (ws.getD 1 0) + ws.getD 6 0 + ssig0 (ws.getD 14 0) + ws.getD 15 0) :: ws)

/-- One round of the compression function on the working variables `a .. h`. -/
def round (s : List Nat) (kw : Nat × Nat) : List Nat :=
  match s with
  | [a, b, c, d, e, f, g, h] =>
    let t1 := h + bsig1 e + ch e f g + kw.1 + kw.2
    let t2 := bsig0 a + maj a b c
    [w32 (t1 + t2), a, b, c, w32 (d + t1), e, f, g]
  | _ => s

/-- Compression of one 64-byte block into the hash value. -/
def compress (h : List Nat) (block : List Nat) : List Nat :=
  let w := (schedule 48 ((chunks 4 16 block).map beWord).reverse).reverse
  List.zipWith (fun x y => w32 (x + y)) h ((K.zip w).foldl round h)

/-- The 32 bytes of the SHA-256 digest of a message. -/
def Sum256 (msg : List Nat) : List Nat :=
  let p := pad msg
  ((chunks 64 (p.length / 64) p).foldl compress H0).flatMap (beBytes 4)

end SHA256

/-! ## Data model -/

/-- The struct `OutfitItem`: a selected garment as it is returned. -/
structure OutfitItem where
  ID : Int
  Color : String
  Material : String
  ImageURL : String
  Labels : List String
deriving DecidableEq

/-- A `map[string]T`, as the list of its entries in enumeration order. -/
abbrev GoMap (β : Type) := List (String × β)

/-- The expression `m[k]`, with `none` for a missing key. -/
def mapGet {β : Type} (m : GoMap β) (k : String) : Option β :=
  (m.find? fun e => e.1 == k).map Prod.snd

/-- The assignment `m[k] = v`. -/
def mapSet {β : Type} : GoMap β → String → β → GoMap β
  | [], k, v => [(k, v)]
  | e :: rest, k, v => if e.1 == k then (k, v) :: rest else e :: mapSet rest k v

/-- The keys of a map, in enumeration order. -/
def mapKeys {β : Type} (m : GoMap β) : List String :=
  m.map Prod.fst

/-- The struct `RecommendationRequest`; an absent JSON field is the empty string or list. -/
structure RecommendationRequest where
  Occasion : String
  Category : String
  Color : String
  Material : String
  Keywords : List String
deriving DecidableEq

/-- The struct `OutfitResponse`; `Items` maps a slot to a pointer to its item. -/
structure OutfitResponse where
  OutfitID : String
  Weather : String
  Occasion : String
  Items : GoMap (Option OutfitItem)
deriving DecidableEq

/-- The struct `RatingRequest`. -/
structure RatingRequest where
  OutfitID : String
  Rating : Int
  Items : GoMap Int
  UserID : String
deriving DecidableEq

/-! ## Outfit identifier -/

/-- The string that `generateOutfitID` hashes: the `slot:id` pairs of the non-nil entries,
in the sorted order of the slot names, joined by a vertical bar. -/
def outfitIDData (items : GoMap (Option OutfitItem)) : String :=
  let slots := sortStrings (mapKeys items)
  let pairs := slots.filterMap fun s =>
    match (mapGet items s).join with
    | none => none
    | some it => some (s ++ ":" ++ formatInt it.ID)
  stringsJoin pairs "|"

/-- The function `generateOutfitID`. -/
def generateOutfitID (items : GoMap (Option OutfitItem)) : String :=
  hexEncodeToString (SHA256.Sum256 (utf8Bytes (outfitIDData items)))

/-- The outfit identifier as section 4.6 of the specification words it, on a filled
slot to garment-id mapping: the entries are sorted by slot name, each is written
`<slot>:<garmentId>`, the pairs are joined with a vertical bar, and the UTF-8 bytes of the
result are hashed with SHA-256 and hex-encoded. -/
def outfitIdentifierSpec (m : GoMap Int) : String :=
  let sorted := m.insertionSort fun a b => stringLE a.1 b.1
  let joined := stringsJoin (sorted.map fun e => e.1 ++ ":" ++ formatInt e.2) "|"
  hexEncodeToString (SHA256.Sum256 (utf8Bytes joined))

/-- The slot to garment-id mapping held by the non-nil entries of an outfit map. -/
def filledIDs (items : GoMap (Option OutfitItem)) : GoMap Int :=
  items.filterMap fun e => e.2.map fun it => (e.1, it.ID)

/-- The slot table of `generateAIRecommendation`: slot name to catalog category. -/
def slots : GoMap String :=
  [("top", "top"), ("bottom", "bottom"), ("dress", "dress"), ("jacket", "jacket"),
   ("footwear", "footwear")]

/-- The number a string of decimal digits denotes. -/
def decimalValue (l : List Char) : Nat :=
  l.foldl (fun acc c => 10 * acc + (c.toNat - 48)) 0


/-! ## float64 -/

/-- A `float64`: a finite value (the rational it denotes; the sign of zero is not kept),
an infinity, or NaN. -/
inductive F64
  | fin (q : ℚ)
  | posInf
  | negInf
  | nan
deriving DecidableEq

namespace F64

/-- Rounding of a rational to the nearest integer, ties to the even one. -/
def rne (m : ℚ) : ℤ :=
  let f := ⌊m⌋
  let r := m - f
  if r < 1 / 2 then f else if 1 / 2 < r then f + 1 else if f % 2 = 0 then f else f + 1

/-- Exponent of the unit in the last place of binary64 at magnitude `a`: 53 significant
bits, and not below the subnormal spacing `2 ^ (-1074)`. -/
def ulpExp (a : ℚ) : ℤ :=
  max (Int.log 2 a - 52) (-1074)

/-- Round-to-nearest-even of a magnitude to the binary64 grid, before the overflow test. -/
def roundAbs (a : ℚ) : ℚ :=
  rne (a / 2 ^ ulpExp a) * 2 ^ ulpExp a

/-- The `float64` a real result rounds to; magnitudes from `2 ^ 1024` on overflow. -/
def round (q : ℚ) : F64 :=
  if 0 ≤ q then
    (if roundAbs q < 2 ^ (1024 : ℤ) then fin (roundAbs q) else posInf)
  else
    (if roundAbs (-q) < 2 ^ (1024 : ℤ) then fin (-roundAbs (-q)) else negInf)

/-- The operator `+` on `float64`. -/
def add : F64 → F64 → F64
  | nan, _ => nan
  | _, nan => nan
  | posInf, negInf => nan
  | negInf, posInf => nan
  | posInf, _ => posInf
  | _, posInf => posInf
  | negInf, _ => negInf
  | _, negInf => negInf
  | fin a, fin b => round (a + b)

/-- The operator `*` on `float64`. -/
def mul : F64 → F64 → F64
  | nan, _ => nan
  | _, nan => nan
  | fin a, fin b => round (a * b)
  | fin a, posInf => if a = 0 then nan else if 0 < a then posInf else negInf
  | fin a, negInf => if a = 0 then nan else if 0 < a then negInf else posInf
  | posInf, fin b => if b = 0 then nan else if 0 < b then posInf else negInf
  | negInf, fin b => if b = 0 then nan else if 0 < b then negInf else posInf
  | posInf, posInf => posInf
  | negInf, negInf => posInf
  | posInf, negInf => negInf
  | negInf, posInf => negInf

/-- The operator `>` on `float64`: false as soon as an operand is NaN. -/
def gt : F64 → F64 → Bool
  | nan, _ => false
  | _, nan => false
  | fin a, fin b => decide (b < a)
  | posInf, posInf => false
  | posInf, _ => true
  | negInf, _ => false
  | fin _, posInf => false
  | fin _, negInf => true

/-- The operator `>=` on `float64`: false as soon as an operand is NaN. -/
def ge : F64 → F64 → Bool
  | nan, _ => false
  | _, nan => false
  | fin a, fin b => decide (b ≤ a)
  | posInf, _ => true
  | negInf, negInf => true
  | negInf, _ => false
  | fin _, posInf => false
  | fin _, negInf => true

/-- A value of the type `float64`: a finite one lies on the binary64 grid. -/
def IsFloat : F64 → Prop
  | fin q => round q = fin q
  | _ => True

end F64


/-! ## The outside world -/

/-- An argument of a SQL statement. -/
inductive SqlArg
  | str (s : String)
  | int (i : Int)
deriving DecidableEq

/-- A call that leaves the process. -/
inductive Call
  | httpGet (url : String)
  | httpPost (url : String) (imageURL : String) (keywords : List String)
  | query (sql : String) (args : List SqlArg)
  | queryRow (sql : String) (args : List SqlArg)
  | txBegin
  | txExec (sql : String) (args : List SqlArg)
  | txCommit
  | txRollback
deriving DecidableEq

/-- The answer of the image analysis service to one `POST /analyze`. -/
inductive AnalyzeReply
  | transportError
  | decodeError
  | scores (m : GoMap F64)

/-- One row delivered by `rows.Next()`, with the answers to the calls made for it. -/
structure Row where
  /-- Result of `rows.Scan`: the columns id, color, material, image_url (no labels),
  or `none` when the scan fails. -/
  scan : Option OutfitItem
  /-- Answer of the analysis service for this row (asked only with keywords). -/
  analyze : AnalyzeReply
  /-- Answer of the average-rating query for this row, `none` when it fails. -/
  avg : Option F64

/-- A JSON document. -/
inductive JsonValue
  | null
  | bool (b : Bool)
  | number (x : F64)
  | string (s : String)
  | array (xs : List JsonValue)
  | object (kv : List (String × JsonValue))

/-- An HTTP response: status code, body text, and the JSON document the body denotes
(`none` when the body is not valid JSON). -/
structure HttpReply where
  status : Nat
  body : String
  json : Option JsonValue

/-- Everything a recommendation request reads from outside. -/
structure World where
  /-- Value of the environment variable `OPENWEATHER_API_KEY`. -/
  apiKey : String
  /-- Answer to `http.Get`, `none` on a transport error. -/
  httpGet : String → Option HttpReply
  /-- The verb `%.1f` of `fmt.Sprintf`. -/
  formatTemp : F64 → String
  /-- Answer to `pool.Query`, `none` on an error. -/
  query : String → List SqlArg → Option (List Row)

/-- A Go call either returns or panics. -/
inductive Outcome (α : Type)
  | ret (a : α)
  | panic (msg : String)
deriving DecidableEq

/-! ## Scoring and selection -/

/-- The function `getImageKeywordScore`: the scores, or `none` for a non-nil error. -/
def getImageKeywordScore (imageURL : String) (keywords : List String) (reply : AnalyzeReply) :
    Option (GoMap F64) × List Call :=
  (match reply with
    | AnalyzeReply.scores m => some m
    | AnalyzeReply.transportError => none
    | AnalyzeReply.decodeError => none,
   [Call.httpPost "http://localhost:8000/analyze" imageURL keywords])

/-- The function `getAvgRating`. -/
def getAvgRating (clothingID : Int) (reply : Option F64) : F64 × List Call :=
  (match reply with
    | some avg => avg
    | none => F64.fin 0,
   [Call.queryRow "SELECT COALESCE(AVG(rating),0) FROM item_ratings WHERE clothing_id=$1"
     [SqlArg.int clothingID]])

/-- The body of the row loop between the scan and the comparison: the score of the
scanned item, the item with its labels, and the calls made. -/
def scoreCandidate (keywords : List String) (item : OutfitItem) (row : Row) :
    F64 × OutfitItem × List Call :=
  let r : F64 × OutfitItem × List Call :=
    if keywords.length > 0 then
      let res := getImageKeywordScore item.ImageURL keywords row.analyze
      let score := match res.1 with
        | some scores => scores.foldl (fun acc e => F64.add acc e.2) (F64.fin 1)
        | none => F64.fin 1
      (score, { item with Labels := keywords }, res.2)
    else (F64.fin 1, item, [])
  let avg := getAvgRating item.ID row.avg
  let score :=
    if F64.gt avg.1 (F64.fin 0) then F64.add r.1 (F64.mul (F64.fin (1 / 4)) avg.1) else r.1
  (score, r.2.1, r.2.2 ++ avg.2)

/-- The variables of the row loop. -/
structure LoopState where
  bestItem : Option OutfitItem
  bestScore : F64
  rowCount : Nat
  calls : List Call

/-- One iteration of `for rows.Next()`: the variables afterwards, and whether the rows are
still open. A failed `rows.Scan` closes the rows (pgx v5), so after its `continue` the next
`rows.Next()` is false. -/
def rowStep (keywords : List String) (st : LoopState) (row : Row) : LoopState × Bool :=
  let st := { st with rowCount := st.rowCount + 1 }
  match row.scan with
  | none => (st, false)
  | some item =>
    let r := scoreCandidate keywords item row
    let st := { st with calls := st.calls ++ r.2.2 }
    (if F64.gt r.1 st.bestScore then { st with bestScore := r.1, bestItem := some r.2.1 }
      else st, true)

/-- The loop `for rows.Next()` over the rows the query has to deliver: it ends when they
are exhausted or closed. -/
def rowLoop (keywords : List String) : List Row → LoopState → LoopState
  | [], st => st
  | row :: rest, st =>
    if (rowStep keywords st row).2 then rowLoop keywords rest (rowStep keywords st row).1
    else (rowStep keywords st row).1

/-- The row loop of one slot, from `bestItem = nil`, `bestScore = -1.0`, `rowCount = 0`. -/
def bestCandidateLoop (keywords : List String) (rows : List Row) : LoopState :=
  rowLoop keywords rows ⟨none, F64.fin (-1), 0, []⟩

/-- The query text and arguments built for one slot. -/
def buildQuery (req : RecommendationRequest) (category : String) : String × List SqlArg :=
  let query := "SELECT id, color, material, image_url \n          \t\tFROM clothes \n          \t\tWHERE occasion ILIKE $1"
  let args := [SqlArg.str req.Occasion]
  let (query, args) :=
    if category ≠ "" then
      (query ++ " AND category ILIKE $" ++ Nat.repr (args.length + 1),
       args ++ [SqlArg.str category])
    else (query, args)
  let (query, args) :=
    if req.Color ≠ "" then
      (query ++ " AND color ILIKE $" ++ Nat.repr (args.length + 1),
       args ++ [SqlArg.str ("%" ++ req.Color ++ "%")])
    else (query, args)
  let (query, args) :=
    if req.Material ≠ "" then
      (query ++ " AND material ILIKE $" ++ Nat.repr (args.length + 1),
       args ++ [SqlArg.str ("%" ++ req.Material ++ "%")])
    else (query, args)
  (query ++ " ORDER BY random() LIMIT 5", args)

/-- The body of `for slot, category := range slots`, on the outfit built so far. -/
def processSlot (req : RecommendationRequest) (w : World)
    (acc : GoMap (Option OutfitItem) × List Call) (slot category : String) :
    GoMap (Option OutfitItem) × List Call :=
  let q := buildQuery req category
  match w.query q.1 q.2 with
  | none => (acc.1, acc.2 ++ [Call.query q.1 q.2])
  | some rows =>
    let st := bestCandidateLoop req.Keywords rows
    let outfit := match st.bestItem with
      | some it => mapSet acc.1 slot (some it)
      | none => acc.1
    (outfit, acc.2 ++ [Call.query q.1 q.2] ++ st.calls ++
      [Call.queryRow
        "SELECT COUNT(*) FROM clothes WHERE occasion ILIKE $1 AND category ILIKE $2"
        [SqlArg.str req.Occasion, SqlArg.str category]])

/-- The function `generateAIRecommendation`; `order` is the order in which the `range`
loop enumerates the slot table. -/
def generateAIRecommendation (req : RecommendationRequest) (weather : String) (w : World)
    (order : GoMap String) : OutfitResponse × List Call :=
  let r := order.foldl (fun acc e => processSlot req w acc e.1 e.2) ([], [])
  ({ OutfitID := generateOutfitID r.1, Weather := weather, Occasion := req.Occasion,
     Items := r.1 }, r.2)

/-! ## Weather -/

/-- The value `m[k]` of a decoded JSON object; the last of several equal keys wins. -/
def jsonGet (kv : List (String × JsonValue)) (k : String) : Option JsonValue :=
  (kv.reverse.find? fun e => e.1 == k).map Prod.snd

/-- The URL `fetchWeather` builds for a city and an API key. -/
def weatherURL (city apiKey : String) : String :=
  "https://api.openweathermap.org/data/2.5/weather?q=" ++ city ++ "&appid=" ++ apiKey ++
    "&units=metric"

/-- The function `fetchWeather`: the returned string and error, or a panic. -/
def fetchWeather (city : String) (w : World) : Outcome (String × Option String) × List Call :=
  if w.apiKey = "" then
    (Outcome.ret ("No API key provided", some "missing OPENWEATHER_API_KEY"), [])
  else
    let url := weatherURL city w.apiKey
    let calls := [Call.httpGet url]
    match w.httpGet url with
    | none => (Outcome.ret ("", some "transport error"), calls)
    | some resp =>
      if resp.status ≠ 200 then
        (Outcome.ret ("", some ("weather API error: " ++ resp.body)), calls)
      else
        match resp.json with
        | none => (Outcome.ret ("", some "invalid JSON"), calls)
        | some (JsonValue.object data) =>
          match jsonGet data "weather" with
          | some (JsonValue.array (JsonValue.object first :: _)) =>
            match jsonGet first "main" with
            | some (JsonValue.string weatherMain) =>
              match jsonGet data "main" with
              | some (JsonValue.object main) =>
                match jsonGet main "temp" with
                | some (JsonValue.number temp) =>
                  (Outcome.ret (weatherMain ++ ", " ++ w.formatTemp temp ++ "°C", none), calls)
                | _ => (Outcome.panic "interface conversion: not a float64", calls)
              | _ => (Outcome.panic "interface conversion: not a map", calls)
            | _ => (Outcome.panic "interface conversion: not a string", calls)
          | some (JsonValue.array []) => (Outcome.panic "index out of range [0]", calls)
          | some (JsonValue.array (_ :: _)) =>
            (Outcome.panic "interface conversion: not a map", calls)
          | _ => (Outcome.panic "interface conversion: not a slice", calls)
        | some JsonValue.null =>
          (Outcome.panic "interface conversion: nil map entry", calls)
        | some _ => (Outcome.ret ("", some "json: cannot unmarshal into map"), calls)

/-! ## Handlers -/

/-- What a handler of the recommendation route does with the request. -/
inductive HandlerResult
  | status (code : Nat) (error : String)
  | json (r : OutfitResponse)
  | panic (msg : String)
deriving DecidableEq

/-- The handler `getRecommendation`; `body` is the result of `c.BodyParser`. -/
def getRecommendation (body : Option RecommendationRequest) (w : World)
    (order : GoMap String) : HandlerResult × List Call :=
  match body with
  | none => (HandlerResult.status 400 "Invalid request", [])
  | some req =>
    if req.Occasion = "" then (HandlerResult.status 400 "Occasion is required", [])
    else
      match fetchWeather "London" w with
      | (Outcome.panic msg, calls) => (HandlerResult.panic msg, calls)
      | (Outcome.ret (weather, err), calls) =>
        let weather := if err.isSome then "Unknown" else weather
        let r := generateAIRecommendation req weather w order
        (HandlerResult.json r.1, calls ++ r.2)

/-- A row of the table `item_ratings`. -/
structure RatingRow where
  outfit_id : String
  clothing_id : Int
  rating : Int
  user_id : String
deriving DecidableEq

/-- The answers of the database to one rating submission. -/
structure RateWorld where
  /-- Whether `pool.Begin` succeeds. -/
  beginOk : Bool
  /-- Whether the `n`-th `tx.Exec` of the transaction succeeds. -/
  execOk : Nat → Bool
  /-- Whether `tx.Commit` succeeds. -/
  commitOk : Bool

/-- What the handler of the rating route answers. -/
inductive RateResult
  | badRequest (error : String)
  | dbError
  | ok
deriving DecidableEq

/-- The insert loop of `rateHandler` from the `n`-th statement on: the rows written in the
transaction so far, or `none` when a statement fails, and the calls made. -/
def insertLoop (w : RateWorld) (r : RatingRequest) :
    Nat → List (String × Int) → List RatingRow → List Call → Option (List RatingRow) × List Call
  | _, [], pending, calls => (some pending, calls)
  | n, e :: rest, pending, calls =>
    let calls := calls ++ [Call.txExec
      "INSERT INTO item_ratings (outfit_id, clothing_id, rating, user_id) VALUES ($1,$2,$3,$4)"
      [SqlArg.str r.OutfitID, SqlArg.int e.2, SqlArg.int r.Rating, SqlArg.str r.UserID]]
    if w.execOk n then
      insertLoop w r (n + 1) rest (pending ++ [⟨r.OutfitID, e.2, r.Rating, r.UserID⟩]) calls
    else (none, calls)

/-- The handler `rateHandler` on the committed content `store` of `item_ratings`: the
answer, the content afterwards, and the calls made. A transaction's rows reach the table
when its commit succeeds; the deferred rollback discards them otherwise. -/
def rateHandler (body : Option RatingRequest) (w : RateWorld) (store : List RatingRow) :
    RateResult × List RatingRow × List Call :=
  match body with
  | none => (RateResult.badRequest "invalid body", store, [])
  | some r =>
    if r.Rating < 1 ∨ r.Rating > 5 then
      (RateResult.badRequest "rating must be 1..5", store, [])
    else if w.beginOk = false then (RateResult.dbError, store, [Call.txBegin])
    else
      match insertLoop w r 0 r.Items [] [Call.txBegin] with
      | (none, calls) => (RateResult.dbError, store, calls ++ [Call.txRollback])
      | (some pending, calls) =>
        if w.commitOk then
          (RateResult.ok, store ++ pending, calls ++ [Call.txCommit, Call.txRollback])
        else (RateResult.dbError, store, calls ++ [Call.txCommit, Call.txRollback])


/-! ## Views of the row loop used in the statements -/

/-- The candidates the row loop scans and scores, in retrieval order: the rows before the
first failed scan, each as the item that would be stored for it and its score. -/
def candidates (keywords : List String) : List Row → List (OutfitItem × F64)
  | [] => []
  | row :: rest =>
    match row.scan with
    | none => []
    | some item =>
      ((scoreCandidate keywords item row).2.1, (scoreCandidate keywords item row).1) ::
        candidates keywords rest

/-- The comparison at the end of one iteration, on the pair `bestItem`, `bestScore`. -/
def pick (st : Option OutfitItem × F64) (c : OutfitItem × F64) : Option OutfitItem × F64 :=
  if F64.gt c.2 st.2 then (some c.1, c.2) else st

/-- The rating contribution to a score: `0.25 * avg` when `avg > 0`, else zero. -/
def ratingBonus (avg : F64) : F64 :=
  if F64.gt avg (F64.fin 0) then F64.mul (F64.fin (1 / 4)) avg else F64.fin 0

/-- The score as section 4.4 of the specification words it: `1.0`, plus the affinity
values returned by the scorer (none when no keyword was requested or the call failed),
plus the rating contribution; the sums are `float64` sums taken from left to right. -/
def scoreSpec (keywords : List String) (row : Row) : F64 :=
  let affinity : List F64 :=
    if keywords = [] then []
    else match row.analyze with
      | AnalyzeReply.scores m => m.map Prod.snd
      | _ => []
  let avg : F64 := match row.avg with
    | some a => a
    | none => F64.fin 0
  F64.add (affinity.foldl F64.add (F64.fin 1)) (ratingBonus avg)


/-! ## Sample data -/

/-- A catalog item with the given id. -/
def sampleItem (id : Int) : OutfitItem :=
  ⟨id, "blue", "cotton", "http://192.168.226.253:8080/uploads/1_a.png", []⟩

/-- A row that scans into `sampleItem id`, with no affinity reply and no rating. -/
def plainRow (id : Int) : Row :=
  ⟨some (sampleItem id), AnalyzeReply.transportError, none⟩

/-- A row whose scan fails. -/
def badRow : Row :=
  ⟨none, AnalyzeReply.transportError, none⟩

/-- A row that scans into `sampleItem id`, with no affinity reply and the average rating
`avg`. -/
def ratedRow (id : Int) (avg : ℚ) : Row :=
  ⟨some (sampleItem id), AnalyzeReply.transportError, some (F64.fin avg)⟩

/-- A row that scans into `sampleItem id`, whose only affinity value is `s`, with no rating. -/
def affinityRow (id : Int) (s : ℚ) : Row :=
  ⟨some (sampleItem id), AnalyzeReply.scores [("casual", F64.fin s)], none⟩


/-- The rating row written for one entry of the items map. -/
def ratingRow (r : RatingRequest) (e : String × Int) : RatingRow :=
  ⟨r.OutfitID, e.2, r.Rating, r.UserID⟩

/-- A world in which the weather service answers `200` with the JSON document `{}`, and
every catalog query fails. -/
def emptyJsonWorld : World where
  apiKey := "k"
  httpGet := fun _ => some ⟨200, "\x7b\x7d", some (JsonValue.object [])⟩
  formatTemp := fun _ => "0.0"
  query := fun _ _ => none

/-- A recommendation request for an occasion, without filters or keywords. -/
def sampleRequest (occasion : String) : RecommendationRequest :=
  ⟨occasion, "", "", "", []⟩

/-- A rating request for three garments. -/
def sampleRating (rating : Int) : RatingRequest :=
  ⟨"a89e31be", rating, [("top", 1), ("bottom", 2), ("footwear", 3)], "u1"⟩

/-- A database on which every statement succeeds, except the `n`-th insert of a
transaction when `failAt = some n`. -/
def sampleRateWorld (failAt : Option Nat) : RateWorld where
  beginOk := true
  execOk := fun n => failAt ≠ some n
  commitOk := true


/-- The item selected for a slot of the given category, if any: none when the catalog
query fails or when the row loop ends without a best item. -/
def slotOutcome (req : RecommendationRequest) (w : World) (category : String) :
    Option OutfitItem :=
  match w.query (buildQuery req category).1 (buildQuery req category).2 with
  | none => none
  | some rows => (bestCandidateLoop req.Keywords rows).bestItem

/-- A world whose catalog has rows for the category `top` only: the query fails for
`dress` and returns no row for the other categories. -/
def topOnlyWorld : World where
  apiKey := ""
  httpGet := fun _ => none
  formatTemp := fun _ => "0.0"
  query := fun _ args =>
    if args = [SqlArg.str "party", SqlArg.str "top"] then some [plainRow 7]
    else if args = [SqlArg.str "party", SqlArg.str "dress"] then none
    else some []


/-! ## Strings: UTF-8 and the order of `sort.Strings` -/

theorem char_eq_of_toNat_eq {c d : Char} (h : c.toNat = d.toNat) : c = d :=
  Char.ext (UInt32.ext h)

theorem char_toNat_lt (c : Char) : c.toNat < 1114112 := by
  have h := c.valid
  unfold Char.toNat
  rcases h with h | h
  · have : c.val.toNat < 55296 := h
    omega
  · have : c.val.toNat < 1114112 := h.2
    omega

/-- UTF-8 is a prefix code: an encoded code point can be split off the front of a byte
sequence in one way only. -/
theorem utf8EncodeChar_append_inj (c d : Char) (r s : List Nat)
    (h : utf8EncodeChar c ++ r = utf8EncodeChar d ++ s) : c = d ∧ r = s := by
  have hc := char_toNat_lt c
  have hd := char_toNat_lt d
  unfold utf8EncodeChar at h
  simp only at h
  split_ifs at h <;>
    simp only [List.cons_append, List.nil_append, List.cons.injEq] at h <;>
    first
      | (exfalso; have h1 := h.1; omega)
      | (refine ⟨char_eq_of_toNat_eq ?_, ?_⟩
         · omega
         · simp only [h])

theorem flatMap_utf8_inj : ∀ (a b : List Char),
    a.flatMap utf8EncodeChar = b.flatMap utf8EncodeChar → a = b
  | [], [] => fun _ => rfl
  | [], d :: _ => by
    intro h
    simp only [List.flatMap_nil, List.flatMap_cons] at h
    unfold utf8EncodeChar at h
    simp only at h
    split_ifs at h <;> simp at h
  | c :: _, [] => by
    intro h
    simp only [List.flatMap_nil, List.flatMap_cons] at h
    unfold utf8EncodeChar at h
    simp only at h
    split_ifs at h <;> simp at h
  | c :: a, d :: b => by
    intro h
    simp only [List.flatMap_cons] at h
    obtain ⟨h1, h2⟩ := utf8EncodeChar_append_inj c d _ _ h
    rw [h1, flatMap_utf8_inj a b h2]

theorem utf8Bytes_inj {a b : String} (h : utf8Bytes a = utf8Bytes b) : a = b := by
  cases a with
  | mk a =>
  cases b with
  | mk b =>
  exact congrArg String.mk (flatMap_utf8_inj a b h)

theorem stringLE_isTotal : IsTotal String stringLE :=
  ⟨fun a b => le_total (utf8Bytes a) (utf8Bytes b)⟩

theorem stringLE_isTrans : IsTrans String stringLE :=
  ⟨fun _ _ _ h1 h2 => @le_trans (List Nat) _ _ _ _ h1 h2⟩

theorem stringLE_isAntisymm : IsAntisymm String stringLE :=
  ⟨fun _ _ h1 h2 => utf8Bytes_inj (@le_antisymm (List Nat) _ _ _ h1 h2)⟩

theorem sortStrings_perm (l : List String) : (sortStrings l).Perm l :=
  List.perm_insertionSort _ l

theorem sortStrings_sorted (l : List String) : (sortStrings l).Sorted stringLE :=
  @List.sorted_insertionSort _ stringLE _ stringLE_isTotal stringLE_isTrans l

/-- The output of `sort.Strings` depends on the collection of strings only. -/
theorem sortStrings_eq_of_perm {l₁ l₂ : List String} (h : l₁.Perm l₂) :
    sortStrings l₁ = sortStrings l₂ :=
  @List.eq_of_perm_of_sorted _ stringLE stringLE_isAntisymm _ _
    (((sortStrings_perm l₁).trans h).trans (sortStrings_perm l₂).symm)
    (sortStrings_sorted l₁) (sortStrings_sorted l₂)


/-! ## Maps -/

theorem mapGet_nil {β : Type} (k : String) : mapGet ([] : GoMap β) k = none := rfl

theorem mapGet_cons {β : Type} (e : String × β) (m : GoMap β) (k : String) :
    mapGet (e :: m) k = if e.1 = k then some e.2 else mapGet m k := by
  unfold mapGet
  by_cases h : e.1 = k
  · simp [List.find?_cons, h]
  · simp [List.find?_cons, h]

theorem mapGet_eq_none {β : Type} {m : GoMap β} {k : String} (h : k ∉ mapKeys m) :
    mapGet m k = none := by
  induction m with
  | nil => rfl
  | cons e m ih =>
    simp only [mapKeys, List.map_cons, List.mem_cons, not_or] at h
    rw [mapGet_cons, if_neg (fun h' => h.1 h'.symm)]
    exact ih h.2

theorem mem_mapKeys_of_mem {β : Type} {m : GoMap β} {k : String} {v : β} (h : (k, v) ∈ m) :
    k ∈ mapKeys m :=
  List.mem_map.mpr ⟨(k, v), h, rfl⟩

theorem mapGet_of_mem {β : Type} {m : GoMap β} {k : String} {v : β}
    (hnd : (mapKeys m).Nodup) (h : (k, v) ∈ m) : mapGet m k = some v := by
  induction m with
  | nil => cases h
  | cons e m ih =>
    simp only [mapKeys, List.map_cons, List.nodup_cons] at hnd
    rw [mapGet_cons]
    rcases List.mem_cons.mp h with h | h
    · subst h
      simp
    · have hk : e.1 ≠ k := by
        intro he
        exact hnd.1 (he ▸ mem_mapKeys_of_mem h)
      rw [if_neg hk]
      exact ih hnd.2 h

theorem mem_of_mapGet {β : Type} {m : GoMap β} {k : String} {v : β}
    (h : mapGet m k = some v) : (k, v) ∈ m := by
  induction m with
  | nil => cases h
  | cons e m ih =>
    rw [mapGet_cons] at h
    by_cases hk : e.1 = k
    · rw [if_pos hk] at h
      cases h
      subst hk
      exact List.mem_cons_self _ _
    · rw [if_neg hk] at h
      exact List.mem_cons_of_mem _ (ih h)

/-- Looking a key up gives the same answer in every enumeration of a map. -/
theorem mapGet_perm {β : Type} {l₁ l₂ : GoMap β} (hnd : (mapKeys l₁).Nodup)
    (h : l₁.Perm l₂) (k : String) : mapGet l₁ k = mapGet l₂ k := by
  have hk : (mapKeys l₁).Perm (mapKeys l₂) := h.map _
  have hnd₂ : (mapKeys l₂).Nodup := hk.nodup_iff.mp hnd
  cases h₁ : mapGet l₁ k with
  | some v => exact (mapGet_of_mem hnd₂ (h.mem_iff.mp (mem_of_mapGet h₁))).symm
  | none =>
    cases h₂ : mapGet l₂ k with
    | none => rfl
    | some v =>
      rw [mapGet_of_mem hnd (h.mem_iff.mpr (mem_of_mapGet h₂))] at h₁
      cases h₁

theorem outfitIDData_perm {l₁ l₂ : GoMap (Option OutfitItem)} (hnd : (mapKeys l₁).Nodup)
    (h : l₁.Perm l₂) : outfitIDData l₁ = outfitIDData l₂ := by
  unfold outfitIDData
  simp only
  have hkeys : sortStrings (mapKeys l₁) = sortStrings (mapKeys l₂) :=
    sortStrings_eq_of_perm (h.map Prod.fst)
  rw [hkeys]
  congr 1
  apply List.filterMap_congr
  intro s _
  rw [mapGet_perm hnd h s]

/-- C1. The outfit identifier depends on the slot to garment content of the map only:
any two enumerations of the same entries (slot names pairwise distinct) give the same
identifier. A second call on the same map is the case of the identical enumeration. -/
theorem generateOutfitID_enumeration_invariant (l₁ l₂ : GoMap (Option OutfitItem))
    (hnd : (mapKeys l₁).Nodup) (h : l₁.Perm l₂) :
    generateOutfitID l₁ = generateOutfitID l₂ := by
  unfold generateOutfitID
  rw [outfitIDData_perm hnd h]


/-! ## The identifier and its specification -/

theorem sortStrings_filter (p : String → Bool) (ks : List String) :
    (sortStrings ks).filter p = sortStrings (ks.filter p) :=
  @List.eq_of_perm_of_sorted _ stringLE stringLE_isAntisymm _ _
    (((sortStrings_perm ks).filter p).trans (sortStrings_perm (ks.filter p)).symm)
    ((sortStrings_sorted ks).filter p) (sortStrings_sorted (ks.filter p))

theorem mapKeys_insertionSort (E : GoMap Int) :
    mapKeys (E.insertionSort fun a b => stringLE a.1 b.1) = sortStrings (mapKeys E) :=
  List.map_insertionSort (fun a b : String × Int => stringLE a.1 b.1) stringLE Prod.fst E
    (fun _ _ _ _ => Iff.rfl)

theorem filterMap_filter_of_none {α β : Type} (f : α → Option β) (p : α → Bool)
    (h : ∀ a, p a = false → f a = none) (l : List α) :
    l.filterMap f = (l.filter p).filterMap f := by
  induction l with
  | nil => rfl
  | cons a l ih =>
    cases hp : p a with
    | true => simp [List.filter_cons, hp, List.filterMap_cons, ih]
    | false => simp [List.filter_cons, hp, List.filterMap_cons, h a hp, ih]

theorem mem_filledIDs {items : GoMap (Option OutfitItem)} {e : String × Int}
    (h : e ∈ filledIDs items) : ∃ it : OutfitItem, (e.1, some it) ∈ items ∧ it.ID = e.2 := by
  unfold filledIDs at h
  obtain ⟨x, hx, hxe⟩ := List.mem_filterMap.mp h
  obtain ⟨k, v⟩ := x
  cases v with
  | none => simp at hxe
  | some it =>
    simp only [Option.map_some', Option.some.injEq] at hxe
    subst hxe
    exact ⟨it, hx, rfl⟩

theorem mapKeys_filledIDs {items : GoMap (Option OutfitItem)} (hnd : (mapKeys items).Nodup) :
    mapKeys (filledIDs items) =
      (mapKeys items).filter fun s => ((mapGet items s).join).isSome := by
  have key : ∀ l : GoMap (Option OutfitItem), (∀ e ∈ l, mapGet items e.1 = some e.2) →
      mapKeys (filledIDs l) = (mapKeys l).filter fun s => ((mapGet items s).join).isSome := by
    intro l
    induction l with
    | nil => intro _; rfl
    | cons e l ih =>
      intro hl
      have he := hl e (List.mem_cons_self _ _)
      have ih' := ih fun x hx => hl x (List.mem_cons_of_mem _ hx)
      obtain ⟨k, v⟩ := e
      simp only [mapKeys, filledIDs] at ih' ⊢
      cases v with
      | none =>
        simp only at he
        simp [List.filterMap_cons, List.filter_cons, he, ih']
      | some it =>
        simp only at he
        simp [List.filterMap_cons, List.filter_cons, he, ih']
  exact key items fun e he => mapGet_of_mem hnd he

/-- The string hashed by the code is the one the specification describes: the entries
sorted by slot name, written `slot:id`, joined by a vertical bar. -/
theorem outfitIDData_eq_spec (items : GoMap (Option OutfitItem))
    (hnd : (mapKeys items).Nodup) :
    outfitIDData items =
      stringsJoin (((filledIDs items).insertionSort fun a b => stringLE a.1 b.1).map
        fun e => e.1 ++ ":" ++ formatInt e.2) "|" := by
  unfold outfitIDData
  simp only
  congr 1
  set f : String → Option String := fun s =>
    match (mapGet items s).join with
    | none => none
    | some it => some (s ++ ":" ++ formatInt it.ID) with hf
  set p : String → Bool := fun s => ((mapGet items s).join).isSome with hp
  set L := (filledIDs items).insertionSort fun a b => stringLE a.1 b.1 with hL
  have hfp : ∀ s, p s = false → f s = none := by
    intro s hs
    simp only [hp, hf] at hs ⊢
    cases h : (mapGet items s).join with
    | none => rfl
    | some it => rw [h] at hs; cases hs
  have hmem : ∀ e ∈ L, f e.1 = some (e.1 ++ ":" ++ formatInt e.2) := by
    intro e he
    have he' : e ∈ filledIDs items := (List.mem_insertionSort _).mp he
    obtain ⟨it, hit, hid⟩ := mem_filledIDs he'
    simp only [hf]
    rw [mapGet_of_mem hnd hit]
    simp [hid]
  have h1 : L.map (fun e => e.1 ++ ":" ++ formatInt e.2) = (L.map Prod.fst).filterMap f := by
    rw [List.filterMap_map]
    rw [← List.filterMap_eq_map]
    apply List.filterMap_congr
    intro e he
    exact (hmem e he).symm
  have h2 : L.map Prod.fst = sortStrings (mapKeys (filledIDs items)) :=
    mapKeys_insertionSort (filledIDs items)
  rw [h1, h2, mapKeys_filledIDs hnd, ← sortStrings_filter]
  exact filterMap_filter_of_none f p hfp _

/-- C9. The identifier computed by `generateOutfitID` is the lowercase hex encoding of the
SHA-256 digest of the UTF-8 bytes of the `slot:id` pairs, sorted by slot name and joined
by a vertical bar, as the specification words it; and for the map with no slot the hashed
string is empty, so the identifier is the SHA-256 digest of the empty string. -/
theorem generateOutfitID_eq_spec :
    (∀ items : GoMap (Option OutfitItem), (mapKeys items).Nodup →
      generateOutfitID items = outfitIdentifierSpec (filledIDs items)) ∧
    outfitIDData [] = "" ∧
    generateOutfitID [] = hexEncodeToString (SHA256.Sum256 (utf8Bytes "")) ∧
    generateOutfitID [] =
      "e3b0c44298fc1c149afbf4c8996fb92427ae41e4649b934ca495991b7852b855" := by
  refine ⟨fun items hnd => ?_, by decide, by decide, by decide⟩
  unfold generateOutfitID outfitIdentifierSpec
  rw [outfitIDData_eq_spec items hnd]


/-! ## Decimal and hexadecimal text -/

theorem digitChar_value : ∀ d < 10, (Nat.digitChar d).toNat - 48 = d := by decide

theorem digitChar_isDigit : ∀ d < 10, (Nat.digitChar d).isDigit = true := by decide

theorem digitChar_inj16 : ∀ a < 16, ∀ b < 16, Nat.digitChar a = Nat.digitChar b → a = b := by
  decide

theorem toDigitsCore_acc (fuel : Nat) : ∀ (n : Nat) (ds : List Char),
    Nat.toDigitsCore 10 fuel n ds = Nat.toDigitsCore 10 fuel n [] ++ ds := by
  induction fuel with
  | zero => intro n ds; simp [Nat.toDigitsCore]
  | succ fuel ih =>
    intro n ds
    simp only [Nat.toDigitsCore]
    by_cases h : n / 10 = 0
    · simp [h]
    · simp only [h, if_false]
      rw [ih (n / 10) (_ :: ds), ih (n / 10) [_]]
      simp

theorem decimalValue_snoc (l : List Char) (c : Char) :
    decimalValue (l ++ [c]) = 10 * decimalValue l + (c.toNat - 48) := by
  simp [decimalValue, List.foldl_append]

theorem decimalValue_toDigitsCore (fuel : Nat) : ∀ n, n < fuel →
    decimalValue (Nat.toDigitsCore 10 fuel n []) = n := by
  induction fuel with
  | zero => intro n h; omega
  | succ fuel ih =>
    intro n hn
    simp only [Nat.toDigitsCore]
    by_cases h : n / 10 = 0
    · simp only [h, if_true]
      have hlt : n % 10 < 10 := Nat.mod_lt _ (by decide)
      have := digitChar_value (n % 10) hlt
      simp only [decimalValue, List.foldl_cons, List.foldl_nil]
      omega
    · simp only [h, if_false]
      rw [toDigitsCore_acc, decimalValue_snoc, ih (n / 10) (by omega),
        digitChar_value (n % 10) (Nat.mod_lt _ (by decide))]
      omega

theorem isDigit_of_mem_toDigitsCore (fuel : Nat) : ∀ (n : Nat) (ds : List Char) (c : Char),
    c ∈ Nat.toDigitsCore 10 fuel n ds → c ∈ ds ∨ c.isDigit = true := by
  induction fuel with
  | zero => intro n ds c h; exact Or.inl (by simpa [Nat.toDigitsCore] using h)
  | succ fuel ih =>
    intro n ds c h
    simp only [Nat.toDigitsCore] at h
    have hd := digitChar_isDigit (n % 10) (Nat.mod_lt _ (by decide))
    by_cases h0 : n / 10 = 0
    · simp only [h0, if_true, List.mem_cons] at h
      rcases h with h | h
      · exact Or.inr (h ▸ hd)
      · exact Or.inl h
    · simp only [h0, if_false] at h
      rcases ih _ _ _ h with h | h
      · rcases List.mem_cons.mp h with h | h
        · exact Or.inr (h ▸ hd)
        · exact Or.inl h
      · exact Or.inr h

theorem natRepr_inj {a b : Nat} (h : Nat.repr a = Nat.repr b) : a = b := by
  have ha := decimalValue_toDigitsCore (a + 1) a (Nat.lt_succ_self a)
  have hb := decimalValue_toDigitsCore (b + 1) b (Nat.lt_succ_self b)
  have h' : Nat.toDigitsCore 10 (a + 1) a [] = Nat.toDigitsCore 10 (b + 1) b [] :=
    congrArg String.data h
  rw [h'] at ha
  exact ha.symm.trans hb

theorem isDigit_of_mem_natRepr {n : Nat} {c : Char} (h : c ∈ (Nat.repr n).data) :
    c.isDigit = true := by
  have h' : c ∈ Nat.toDigitsCore 10 (n + 1) n [] := h
  rcases isDigit_of_mem_toDigitsCore _ _ _ _ h' with h | h
  · cases h
  · exact h

theorem formatInt_data_negSucc (n : Nat) :
    (formatInt (Int.negSucc n)).data = '-' :: (Nat.repr (n + 1)).data := by
  simp [formatInt, String.data_append]

/-- The characters `%d` writes are decimal digits and the minus sign. -/
theorem mem_formatInt {i : Int} {c : Char} (h : c ∈ (formatInt i).data) :
    c.isDigit = true ∨ c = '-' := by
  cases i with
  | ofNat n => exact Or.inl (isDigit_of_mem_natRepr h)
  | negSucc n =>
    rw [formatInt_data_negSucc] at h
    rcases List.mem_cons.mp h with h | h
    · exact Or.inr h
    · exact Or.inl (isDigit_of_mem_natRepr h)

/-- The verb `%d` writes different integers differently. -/
theorem formatInt_inj {a b : Int} (h : formatInt a = formatInt b) : a = b := by
  have hd := congrArg String.data h
  cases a with
  | ofNat m =>
    cases b with
    | ofNat n => exact congrArg Int.ofNat (natRepr_inj h)
    | negSucc n =>
      exfalso
      rw [formatInt_data_negSucc] at hd
      have hmem : '-' ∈ (formatInt (Int.ofNat m)).data := by rw [hd]; exact List.mem_cons_self _ _
      have := isDigit_of_mem_natRepr (n := m) hmem
      exact absurd this (by decide)
  | negSucc m =>
    cases b with
    | ofNat n =>
      exfalso
      rw [formatInt_data_negSucc] at hd
      have hmem : '-' ∈ (formatInt (Int.ofNat n)).data := by rw [← hd]; exact List.mem_cons_self _ _
      have := isDigit_of_mem_natRepr (n := n) hmem
      exact absurd this (by decide)
    | negSucc n =>
      rw [formatInt_data_negSucc, formatInt_data_negSucc] at hd
      have h1 : (Nat.repr (m + 1)).data = (Nat.repr (n + 1)).data := (List.cons.inj hd).2
      have h2 : Nat.repr (m + 1) = Nat.repr (n + 1) := by
        cases hm : Nat.repr (m + 1)
        cases hn : Nat.repr (n + 1)
        rw [hm, hn] at h1
        exact congrArg String.mk h1
      have := natRepr_inj h2
      have : m = n := by omega
      rw [this]

theorem hexEncode_data_inj : ∀ (xs ys : List Nat), (∀ x ∈ xs, x < 256) → (∀ y ∈ ys, y < 256) →
    (xs.flatMap fun b => [Nat.digitChar (b / 16), Nat.digitChar (b % 16)]) =
      (ys.flatMap fun b => [Nat.digitChar (b / 16), Nat.digitChar (b % 16)]) → xs = ys
  | [], [], _, _, _ => rfl
  | [], _ :: _, _, _, h => by simp at h
  | _ :: _, [], _, _, h => by simp at h
  | x :: xs, y :: ys, hx, hy, h => by
    simp only [List.flatMap_cons, List.cons_append, List.nil_append, List.cons.injEq] at h
    have hx0 := hx x (List.mem_cons_self _ _)
    have hy0 := hy y (List.mem_cons_self _ _)
    have h1 := digitChar_inj16 (x / 16) (by omega) (y / 16) (by omega) h.1
    have h2 := digitChar_inj16 (x % 16) (Nat.mod_lt _ (by decide)) (y % 16)
      (Nat.mod_lt _ (by decide)) h.2.1
    have hxy : x = y := by omega
    rw [hxy, hexEncode_data_inj xs ys (fun a ha => hx a (List.mem_cons_of_mem _ ha))
      (fun a ha => hy a (List.mem_cons_of_mem _ ha)) h.2.2]

/-- Hex encoding loses nothing on bytes. -/
theorem hexEncodeToString_inj {xs ys : List Nat} (hx : ∀ x ∈ xs, x < 256)
    (hy : ∀ y ∈ ys, y < 256) (h : hexEncodeToString xs = hexEncodeToString ys) : xs = ys :=
  hexEncode_data_inj xs ys hx hy (congrArg String.data h)

theorem beBytes_lt (n : Nat) : ∀ (x b : Nat), b ∈ SHA256.beBytes n x → b < 256 := by
  induction n with
  | zero => intro x b h; cases h
  | succ n ih =>
    intro x b h
    simp only [SHA256.beBytes, List.mem_cons] at h
    rcases h with h | h
    · rw [h]; exact Nat.mod_lt _ (by decide)
    · exact ih x b h

/-- Known answers of SHA-256: the digests of the empty message and of `abc`. -/
theorem Sum256_known_answers :
    hexEncodeToString (SHA256.Sum256 []) =
        "e3b0c44298fc1c149afbf4c8996fb92427ae41e4649b934ca495991b7852b855" ∧
      hexEncodeToString (SHA256.Sum256 (utf8Bytes "abc")) =
        "ba7816bf8f01cfea414140de5dae2223b00361a396177a9cb410ff61f20015ad" := by
  constructor <;> decide

/-- A SHA-256 digest is a list of bytes. -/
theorem Sum256_lt (msg : List Nat) : ∀ b ∈ SHA256.Sum256 msg, b < 256 := by
  intro b hb
  unfold SHA256.Sum256 at hb
  simp only [List.mem_flatMap] at hb
  obtain ⟨w, _, hw⟩ := hb
  exact beBytes_lt 4 w b hw


/-! ## Different mappings are hashed from different strings -/

theorem append_cons_inj {α : Type} {c : α} : ∀ (l₁ l₂ r₁ r₂ : List α),
    c ∉ l₁ → c ∉ l₂ → l₁ ++ c :: r₁ = l₂ ++ c :: r₂ → l₁ = l₂ ∧ r₁ = r₂
  | [], [], _, _, _, _, h => ⟨rfl, (List.cons.inj h).2⟩
  | [], b :: l₂, _, _, _, h₂, h => by
    simp only [List.nil_append, List.cons_append, List.cons.injEq] at h
    exact absurd (h.1 ▸ List.mem_cons_self _ _) h₂
  | a :: l₁, [], _, _, h₁, _, h => by
    simp only [List.nil_append, List.cons_append, List.cons.injEq] at h
    exact absurd (h.1 ▸ List.mem_cons_self _ _) h₁
  | a :: l₁, b :: l₂, r₁, r₂, h₁, h₂, h => by
    simp only [List.cons_append, List.cons.injEq] at h
    obtain ⟨ih₁, ih₂⟩ := append_cons_inj l₁ l₂ r₁ r₂
      (fun hc => h₁ (List.mem_cons_of_mem _ hc)) (fun hc => h₂ (List.mem_cons_of_mem _ hc)) h.2
    exact ⟨by rw [h.1, ih₁], ih₂⟩

theorem stringsJoin_cons_cons (a b : String) (rest : List String) (sep : String) :
    (stringsJoin (a :: b :: rest) sep).data =
      a.data ++ (sep.data ++ (stringsJoin (b :: rest) sep).data) := by
  simp [stringsJoin, String.data_append]

theorem string_eq_of_data_eq {a b : String} (h : a.data = b.data) : a = b := by
  cases a
  cases b
  exact congrArg String.mk h

/-- Joining with a bar can be undone when no piece is empty or contains a bar. -/
theorem stringsJoin_bar_inj : ∀ (ps qs : List String),
    (∀ p ∈ ps, p.data ≠ [] ∧ '|' ∉ p.data) → (∀ q ∈ qs, q.data ≠ [] ∧ '|' ∉ q.data) →
    stringsJoin ps "|" = stringsJoin qs "|" → ps = qs
  | [], [], _, _, _ => rfl
  | [], [q], _, hq, h => by
    exact absurd (congrArg String.data h).symm (hq q (List.mem_cons_self _ _)).1
  | [], q :: q' :: qs, _, _, h => by
    have := congrArg String.data h
    rw [stringsJoin_cons_cons] at this
    simp [stringsJoin] at this
  | [p], [], hp, _, h => by
    exact absurd (congrArg String.data h) (hp p (List.mem_cons_self _ _)).1
  | [p], [q], _, _, h => by
    have : p = q := h
    rw [this]
  | [p], q :: q' :: qs, hp, _, h => by
    exfalso
    have := congrArg String.data h
    rw [stringsJoin_cons_cons] at this
    have hmem : '|' ∈ p.data := by
      have hp' : (stringsJoin [p] "|").data = p.data := rfl
      rw [← hp', this]
      simp
    exact (hp p (List.mem_cons_self _ _)).2 hmem
  | p :: p' :: ps, [], _, _, h => by
    have := congrArg String.data h
    rw [stringsJoin_cons_cons] at this
    simp [stringsJoin] at this
  | p :: p' :: ps, [q], _, hq, h => by
    exfalso
    have := congrArg String.data h
    rw [stringsJoin_cons_cons] at this
    have hmem : '|' ∈ q.data := by
      have hq' : (stringsJoin [q] "|").data = q.data := rfl
      rw [← hq', ← this]
      simp
    exact (hq q (List.mem_cons_self _ _)).2 hmem
  | p :: p' :: ps, q :: q' :: qs, hp, hq, h => by
    have hd := congrArg String.data h
    rw [stringsJoin_cons_cons, stringsJoin_cons_cons] at hd
    have hbar : ("|" : String).data = ['|'] := rfl
    rw [hbar] at hd
    simp only [List.singleton_append] at hd
    obtain ⟨h₁, h₂⟩ := append_cons_inj _ _ _ _ (hp p (List.mem_cons_self _ _)).2
      (hq q (List.mem_cons_self _ _)).2 hd
    have ih := stringsJoin_bar_inj (p' :: ps) (q' :: qs)
      (fun x hx => hp x (List.mem_cons_of_mem _ hx))
      (fun x hx => hq x (List.mem_cons_of_mem _ hx)) (string_eq_of_data_eq h₂)
    rw [string_eq_of_data_eq h₁, ih]

theorem slots_chars : ∀ k ∈ mapKeys slots, ':' ∉ k.data ∧ '|' ∉ k.data := by decide

theorem pair_data (s : String) (i : Int) :
    (s ++ ":" ++ formatInt i).data = s.data ++ ':' :: (formatInt i).data := by
  simp [String.data_append]

theorem pair_ne_nil_no_bar {s : String} {i : Int} (hs : '|' ∉ s.data) :
    (s ++ ":" ++ formatInt i).data ≠ [] ∧ '|' ∉ (s ++ ":" ++ formatInt i).data := by
  rw [pair_data]
  refine ⟨by simp, ?_⟩
  intro h
  rcases List.mem_append.mp h with h | h
  · exact hs h
  · rcases List.mem_cons.mp h with h | h
    · exact absurd h (by decide)
    · rcases mem_formatInt h with h | h
      · exact absurd h (by decide)
      · exact absurd h (by decide)

theorem pair_inj {s t : String} {i j : Int} (hs : ':' ∉ s.data) (ht : ':' ∉ t.data)
    (h : s ++ ":" ++ formatInt i = t ++ ":" ++ formatInt j) : (s, i) = (t, j) := by
  have hd := congrArg String.data h
  rw [pair_data, pair_data] at hd
  obtain ⟨h₁, h₂⟩ := append_cons_inj _ _ _ _ hs ht hd
  rw [string_eq_of_data_eq h₁, formatInt_inj (string_eq_of_data_eq h₂)]

theorem map_inj_on {α β : Type} (g : α → β) : ∀ (l₁ l₂ : List α),
    (∀ a ∈ l₁, ∀ b ∈ l₂, g a = g b → a = b) → l₁.map g = l₂.map g → l₁ = l₂
  | [], [], _, _ => rfl
  | [], _ :: _, _, h => by simp at h
  | _ :: _, [], _, h => by simp at h
  | a :: l₁, b :: l₂, hg, h => by
    simp only [List.map_cons, List.cons.injEq] at h
    rw [hg a (List.mem_cons_self _ _) b (List.mem_cons_self _ _) h.1,
      map_inj_on g l₁ l₂ (fun x hx y hy => hg x (List.mem_cons_of_mem _ hx) y
        (List.mem_cons_of_mem _ hy)) h.2]

theorem fst_mem_of_mem_filledIDs {m : GoMap (Option OutfitItem)} {e : String × Int}
    (h : e ∈ filledIDs m) : e.1 ∈ mapKeys m := by
  obtain ⟨it, hit, _⟩ := mem_filledIDs h
  exact mem_mapKeys_of_mem hit

/-- Two maps over the five slots with the same hashed string hold the same
slot and garment-id pairs. -/
theorem filledIDs_of_outfitIDData_eq {m₁ m₂ : GoMap (Option OutfitItem)}
    (hk₁ : ∀ k ∈ mapKeys m₁, k ∈ mapKeys slots) (hk₂ : ∀ k ∈ mapKeys m₂, k ∈ mapKeys slots)
    (hnd₁ : (mapKeys m₁).Nodup) (hnd₂ : (mapKeys m₂).Nodup)
    (h : outfitIDData m₁ = outfitIDData m₂) (p : String × Int) :
    p ∈ filledIDs m₁ ↔ p ∈ filledIDs m₂ := by
  rw [outfitIDData_eq_spec m₁ hnd₁, outfitIDData_eq_spec m₂ hnd₂] at h
  have hc₁ : ∀ e ∈ (filledIDs m₁).insertionSort (fun a b => stringLE a.1 b.1),
      ':' ∉ e.1.data ∧ '|' ∉ e.1.data := fun e he =>
    slots_chars _ (hk₁ _ (fst_mem_of_mem_filledIDs ((List.mem_insertionSort _).mp he)))
  have hc₂ : ∀ e ∈ (filledIDs m₂).insertionSort (fun a b => stringLE a.1 b.1),
      ':' ∉ e.1.data ∧ '|' ∉ e.1.data := fun e he =>
    slots_chars _ (hk₂ _ (fst_mem_of_mem_filledIDs ((List.mem_insertionSort _).mp he)))
  have hlists := stringsJoin_bar_inj _ _
    (fun x hx => by
      obtain ⟨e, he, rfl⟩ := List.mem_map.mp hx
      exact pair_ne_nil_no_bar (hc₁ e he).2)
    (fun x hx => by
      obtain ⟨e, he, rfl⟩ := List.mem_map.mp hx
      exact pair_ne_nil_no_bar (hc₂ e he).2) h
  have hsorted := map_inj_on _ _ _
    (fun a ha b hb hab => by
      have := pair_inj (hc₁ a ha).1 (hc₂ b hb).1 hab
      exact this) hlists
  rw [← List.mem_insertionSort (fun a b : String × Int => stringLE a.1 b.1) (l := filledIDs m₁),
    ← List.mem_insertionSort (fun a b : String × Int => stringLE a.1 b.1) (l := filledIDs m₂),
    hsorted]

/-- C2. Two outfit maps over the five fixed slots that differ in a slot and garment-id
pair are hashed from different strings, so their identifiers differ unless SHA-256
collides on these two strings. -/
theorem generateOutfitID_distinct (m₁ m₂ : GoMap (Option OutfitItem))
    (hk₁ : ∀ k ∈ mapKeys m₁, k ∈ mapKeys slots) (hk₂ : ∀ k ∈ mapKeys m₂, k ∈ mapKeys slots)
    (hnd₁ : (mapKeys m₁).Nodup) (hnd₂ : (mapKeys m₂).Nodup)
    (hdiff : ∃ p : String × Int, ¬ (p ∈ filledIDs m₁ ↔ p ∈ filledIDs m₂)) :
    outfitIDData m₁ ≠ outfitIDData m₂ ∧
      (SHA256.Sum256 (utf8Bytes (outfitIDData m₁)) ≠
          SHA256.Sum256 (utf8Bytes (outfitIDData m₂)) →
        generateOutfitID m₁ ≠ generateOutfitID m₂) := by
  constructor
  · intro h
    obtain ⟨p, hp⟩ := hdiff
    exact hp (filledIDs_of_outfitIDData_eq hk₁ hk₂ hnd₁ hnd₂ h p)
  · intro hsha h
    exact hsha (hexEncodeToString_inj (Sum256_lt _) (Sum256_lt _) h)


namespace F64

/-! ## float64: rounding -/

theorem floor_le_rne (m : ℚ) : ⌊m⌋ ≤ rne m := by
  unfold rne
  simp only
  split_ifs <;> omega

theorem rne_le_floor_succ (m : ℚ) : rne m ≤ ⌊m⌋ + 1 := by
  unfold rne
  simp only
  split_ifs <;> omega

theorem int_le_rne {z : ℤ} {m : ℚ} (h : (z : ℚ) ≤ m) : z ≤ rne m :=
  le_trans (Int.le_floor.mpr h) (floor_le_rne m)

theorem rne_le_int {z : ℤ} {m : ℚ} (h : m ≤ (z : ℚ)) : rne m ≤ z := by
  by_cases hm : m = (z : ℚ)
  · subst hm
    unfold rne
    simp
  · have hlt : m < (z : ℚ) := lt_of_le_of_ne h hm
    have hf : ⌊m⌋ < z := Int.floor_lt.mpr hlt
    have := rne_le_floor_succ m
    omega

theorem two_zpow_pos (k : ℤ) : (0 : ℚ) < 2 ^ k := zpow_pos (by norm_num) k

/-- Rounding does not cross a point of the grid it rounds to. -/
theorem roundAbs_le_of_le_grid {a : ℚ} {z : ℤ} (h : a ≤ z * 2 ^ ulpExp a) :
    roundAbs a ≤ z * 2 ^ ulpExp a := by
  unfold roundAbs
  have hpos := two_zpow_pos (ulpExp a)
  have h1 : a / 2 ^ ulpExp a ≤ (z : ℚ) := (div_le_iff₀ hpos).mpr h
  have h2 : ((rne (a / 2 ^ ulpExp a) : ℤ) : ℚ) ≤ (z : ℚ) := by exact_mod_cast rne_le_int h1
  exact mul_le_mul_of_nonneg_right h2 hpos.le

theorem grid_le_roundAbs_of_le {a : ℚ} {z : ℤ} (h : z * 2 ^ ulpExp a ≤ a) :
    z * 2 ^ ulpExp a ≤ roundAbs a := by
  unfold roundAbs
  have hpos := two_zpow_pos (ulpExp a)
  have h1 : (z : ℚ) ≤ a / 2 ^ ulpExp a := (le_div_iff₀ hpos).mpr h
  have h2 : (z : ℚ) ≤ ((rne (a / 2 ^ ulpExp a) : ℤ) : ℚ) := by exact_mod_cast int_le_rne h1
  exact mul_le_mul_of_nonneg_right h2 hpos.le

/-- A multiple of a power of two at least as coarse as the unit in the last place is a
multiple of that unit. -/
theorem coarse_grid {k j : ℤ} (h : k ≤ j) (n : ℤ) :
    ∃ z : ℤ, (n : ℚ) * 2 ^ j = z * 2 ^ k := by
  refine ⟨n * 2 ^ (j - k).toNat, ?_⟩
  have hj : j = (j - k).toNat + k := by
    have := Int.toNat_of_nonneg (sub_nonneg.mpr h)
    omega
  have h2 : (2 : ℚ) ^ j = 2 ^ (j - k).toNat * 2 ^ k := by
    conv_lhs => rw [hj]
    rw [zpow_add₀ (by norm_num : (2 : ℚ) ≠ 0), zpow_natCast]
  rw [h2]
  push_cast
  ring

theorem roundAbs_le_of_le {a : ℚ} {n j : ℤ} (hk : ulpExp a ≤ j) (h : a ≤ n * 2 ^ j) :
    roundAbs a ≤ n * 2 ^ j := by
  obtain ⟨z, hz⟩ := coarse_grid hk n
  rw [hz] at h ⊢
  exact roundAbs_le_of_le_grid h

theorem le_roundAbs_of_le {a : ℚ} {n j : ℤ} (hk : ulpExp a ≤ j) (h : (n : ℚ) * 2 ^ j ≤ a) :
    (n : ℚ) * 2 ^ j ≤ roundAbs a := by
  obtain ⟨z, hz⟩ := coarse_grid hk n
  rw [hz] at h ⊢
  exact grid_le_roundAbs_of_le h

/-- A value on the grid rounds to itself. -/
theorem roundAbs_eq_self {a : ℚ} {n j : ℤ} (hk : ulpExp a ≤ j) (h : a = n * 2 ^ j) :
    roundAbs a = a :=
  le_antisymm (by
      calc roundAbs a ≤ n * 2 ^ j := roundAbs_le_of_le hk h.le
        _ = a := h.symm)
    (by
      calc a = n * 2 ^ j := h
        _ ≤ roundAbs a := le_roundAbs_of_le hk h.ge)

theorem roundAbs_nonneg {a : ℚ} (h : 0 ≤ a) : 0 ≤ roundAbs a := by
  have := grid_le_roundAbs_of_le (a := a) (z := 0) (by simpa using h)
  simpa using this

theorem zpow_log_le {a : ℚ} (ha : 0 < a) : (2 : ℚ) ^ Int.log 2 a ≤ a := by
  simpa using Int.zpow_log_le_self (b := 2) (by norm_num) ha

theorem lt_zpow_log_succ (a : ℚ) : a < (2 : ℚ) ^ (Int.log 2 a + 1) := by
  simpa using Int.lt_zpow_succ_log_self (b := 2) (by norm_num) a

theorem log_lt_of_lt {a : ℚ} {x : ℤ} (ha : 0 < a) (h : a < 2 ^ x) : Int.log 2 a < x := by
  have := (Int.lt_zpow_iff_log_lt (b := 2) (by norm_num) (x := x) ha).mp (by simpa using h)
  exact this

theorem le_log_of_le {a : ℚ} {x : ℤ} (ha : 0 < a) (h : 2 ^ x ≤ a) : x ≤ Int.log 2 a := by
  have := (Int.zpow_le_iff_le_log (b := 2) (by norm_num) (x := x) ha).mp (by simpa using h)
  exact this

theorem ulpExp_le_of_lt {a : ℚ} {j : ℤ} (ha : 0 < a) (hj : -1074 ≤ j) (h : a < 2 ^ (j + 53)) :
    ulpExp a ≤ j := by
  unfold ulpExp
  have := log_lt_of_lt ha h
  omega

theorem roundAbs_zero : roundAbs 0 = 0 := by
  unfold roundAbs rne
  simp

/-- Exactness: a multiple `n * 2 ^ j` of a power of two with `j ≥ -1074` below
`2 ^ (j + 53)` is a point of the binary64 grid. -/
theorem roundAbs_exact {a : ℚ} (n j : ℤ) (ha : 0 ≤ a) (hj : -1074 ≤ j)
    (hlt : a < 2 ^ (j + 53)) (h : a = n * 2 ^ j) : roundAbs a = a := by
  rcases ha.eq_or_lt with h0 | hpos
  · rw [← h0]
    exact roundAbs_zero
  · exact roundAbs_eq_self (ulpExp_le_of_lt hpos hj hlt) h

/-- Rounding a magnitude in the normal range keeps it at or above the power of two below. -/
theorem zpow_le_roundAbs {a : ℚ} {x : ℤ} (hx : -1022 ≤ x) (h : 2 ^ x ≤ a) :
    (2 : ℚ) ^ x ≤ roundAbs a := by
  have ha : 0 < a := lt_of_lt_of_le (two_zpow_pos x) h
  have he : x ≤ Int.log 2 a := le_log_of_le ha h
  have hk : ulpExp a = Int.log 2 a - 52 := by
    unfold ulpExp
    omega
  have h1 : (2 : ℚ) ^ Int.log 2 a = ((2 ^ 52 : ℤ) : ℚ) * 2 ^ ulpExp a := by
    have hz : (((2 : ℤ) ^ 52 : ℤ) : ℚ) = (2 : ℚ) ^ (52 : ℤ) := by norm_num
    rw [hk, hz, ← zpow_add₀ (by norm_num : (2 : ℚ) ≠ 0)]
    congr 1
    omega
  have h2 : (2 : ℚ) ^ Int.log 2 a ≤ roundAbs a := by
    rw [h1]
    apply grid_le_roundAbs_of_le
    rw [← h1]
    exact zpow_log_le ha
  exact le_trans (zpow_le_zpow_right₀ (by norm_num) he) h2

theorem one_le_roundAbs {a : ℚ} (h : 1 ≤ a) : 1 ≤ roundAbs a := by
  have := zpow_le_roundAbs (a := a) (x := 0) (by norm_num) (by simpa using h)
  simpa using this

end F64


namespace F64

theorem rne_scaled_le (a : ℚ) : rne (a / 2 ^ ulpExp a) ≤ 2 ^ 53 := by
  apply rne_le_int
  have hpos := two_zpow_pos (ulpExp a)
  rw [div_le_iff₀ hpos]
  have hk : Int.log 2 a + 1 ≤ 53 + ulpExp a := by
    unfold ulpExp
    omega
  have hz : (((2 : ℤ) ^ 53 : ℤ) : ℚ) = (2 : ℚ) ^ (53 : ℤ) := by norm_num
  rw [hz, ← zpow_add₀ (by norm_num : (2 : ℚ) ≠ 0)]
  exact le_trans (lt_zpow_log_succ a).le (zpow_le_zpow_right₀ (by norm_num) hk)

/-- Rounding is idempotent: its result is a point of the grid. -/
theorem roundAbs_idem {a : ℚ} (ha : 0 ≤ a) : roundAbs (roundAbs a) = roundAbs a := by
  rcases ha.eq_or_lt with h0 | hpos
  · rw [← h0, roundAbs_zero, roundAbs_zero]
  · have hk : -1074 ≤ ulpExp a := le_max_right _ _
    have hN := rne_scaled_le a
    have hr : roundAbs a = (rne (a / 2 ^ ulpExp a) : ℚ) * 2 ^ ulpExp a := rfl
    have h2 := two_zpow_pos (ulpExp a)
    rcases hN.eq_or_lt with hN | hN
    · have hz : (((2 : ℤ) ^ 53 : ℤ) : ℚ) = (2 : ℚ) ^ (53 : ℤ) := by norm_num
      have hr' : roundAbs a = ((1 : ℤ) : ℚ) * 2 ^ (ulpExp a + 53) := by
        rw [hr, hN, hz, ← zpow_add₀ (by norm_num : (2 : ℚ) ≠ 0), add_comm]
        simp
      refine roundAbs_exact 1 (ulpExp a + 53) (roundAbs_nonneg ha) (by omega) ?_ hr'
      rw [hr']
      simp only [Int.cast_one, one_mul]
      exact zpow_lt_zpow_right₀ (by norm_num) (by omega)
    · refine roundAbs_exact _ (ulpExp a) (roundAbs_nonneg ha) hk ?_ hr
      rw [hr, zpow_add₀ (by norm_num : (2 : ℚ) ≠ 0), mul_comm ((2 : ℚ) ^ ulpExp a)]
      apply mul_lt_mul_of_pos_right _ h2
      have : ((rne (a / 2 ^ ulpExp a) : ℤ) : ℚ) < (((2 : ℤ) ^ 53 : ℤ) : ℚ) := by
        exact_mod_cast hN
      have hz : (((2 : ℤ) ^ 53 : ℤ) : ℚ) = (2 : ℚ) ^ (53 : ℤ) := by norm_num
      rw [hz] at this
      exact this

/-- The result of rounding is a `float64`. -/
theorem isFloat_round (q : ℚ) : IsFloat (round q) := by
  unfold round
  by_cases hq : 0 ≤ q
  · rw [if_pos hq]
    by_cases hov : roundAbs q < 2 ^ (1024 : ℤ)
    · rw [if_pos hov]
      show round (roundAbs q) = fin (roundAbs q)
      unfold round
      rw [if_pos (roundAbs_nonneg hq), roundAbs_idem hq, if_pos hov]
    · rw [if_neg hov]
      trivial
  · rw [if_neg hq]
    have hq' : 0 ≤ -q := by linarith
    by_cases hov : roundAbs (-q) < 2 ^ (1024 : ℤ)
    · rw [if_pos hov]
      show round (-roundAbs (-q)) = fin (-roundAbs (-q))
      have hr := roundAbs_nonneg hq'
      rcases hr.eq_or_lt with h0 | hpos
      · rw [← h0]
        unfold round
        simp only [neg_zero, le_refl, if_true, roundAbs_zero]
        rw [if_pos (two_zpow_pos 1024)]
      · unfold round
        rw [if_neg (by linarith), neg_neg, roundAbs_idem hq', if_pos hov]
    · rw [if_neg hov]
      trivial

theorem isFloat_add (x y : F64) : IsFloat (add x y) := by
  cases x <;> cases y <;> first | exact isFloat_round _ | trivial

/-- Adding the `float64` zero changes nothing. -/
theorem add_zero_of_isFloat {x : F64} (h : IsFloat x) : add x (fin 0) = x := by
  cases x with
  | fin q =>
    show round (q + 0) = fin q
    rw [add_zero]
    exact h
  | posInf => rfl
  | negInf => rfl
  | nan => rfl

theorem round_of_exact {q : ℚ} (n j : ℤ) (hq : 0 ≤ q) (hj : -1074 ≤ j)
    (hlt : q < 2 ^ (j + 53)) (h : q = n * 2 ^ j) (hmax : q < 2 ^ (1024 : ℤ)) :
    round q = fin q := by
  unfold round
  rw [if_pos hq, roundAbs_exact n j hq hj hlt h, if_pos hmax]

theorem round_neg_of_exact {q : ℚ} (n j : ℤ) (hq : 0 < q) (hj : -1074 ≤ j)
    (hlt : q < 2 ^ (j + 53)) (h : q = n * 2 ^ j) (hmax : q < 2 ^ (1024 : ℤ)) :
    round (-q) = fin (-q) := by
  unfold round
  rw [if_neg (by linarith), neg_neg, roundAbs_exact n j hq.le hj hlt h, if_pos hmax]

theorem round_one : round 1 = fin 1 :=
  round_of_exact 1 0 (by norm_num) (by norm_num) (by norm_num) (by norm_num) (by norm_num)

theorem round_five_quarters : round (5 / 4) = fin (5 / 4) :=
  round_of_exact 5 (-2) (by norm_num) (by norm_num) (by norm_num) (by norm_num) (by norm_num)

theorem round_nine_quarters : round (9 / 4) = fin (9 / 4) :=
  round_of_exact 9 (-2) (by norm_num) (by norm_num) (by norm_num) (by norm_num) (by norm_num)

theorem round_neg_three_halves : round (-(3 / 2)) = fin (-(3 / 2)) :=
  round_neg_of_exact 3 (-1) (by norm_num) (by norm_num) (by norm_num) (by norm_num)
    (by norm_num)

/-! ## float64: order -/

theorem ge_of_gt {x y : F64} (h : gt x y = true) : ge x y = true := by
  cases x <;> cases y <;> simp [gt, ge] at h ⊢
  exact h.le

theorem ge_of_gt_eq_false {x y : F64} (hx : x ≠ nan) (hy : y ≠ nan) (h : gt x y = false) :
    ge y x = true := by
  cases x <;> cases y <;> simp [gt, ge] at h hx hy ⊢
  exact h

theorem ge_refl {x : F64} (hx : x ≠ nan) : ge x x = true := by
  cases x <;> simp [ge] at hx ⊢

theorem gt_of_gt_of_ge {x y z : F64} (h₁ : gt x y = true) (h₂ : ge y z = true) :
    gt x z = true := by
  cases x <;> cases y <;> cases z <;> simp [gt, ge] at h₁ h₂ ⊢
  exact lt_of_le_of_lt h₂ h₁

theorem ne_nan_of_gt {x y : F64} (h : gt x y = true) : x ≠ nan := by
  cases x <;> simp [gt] at h ⊢

end F64


/-! ## Selection of the best candidate -/

theorem rowLoop_pick (keywords : List String) : ∀ (rows : List Row) (st : LoopState),
    ((rowLoop keywords rows st).bestItem, (rowLoop keywords rows st).bestScore) =
      (candidates keywords rows).foldl pick (st.bestItem, st.bestScore) := by
  intro rows
  induction rows with
  | nil => intro st; rfl
  | cons row rows ih =>
    intro st
    cases hs : row.scan with
    | none => simp [rowLoop, rowStep, candidates, hs]
    | some item =>
      have h2 : (rowStep keywords st row).2 = true := by simp [rowStep, hs]
      rw [rowLoop, if_pos h2, ih]
      simp only [candidates, hs, List.foldl_cons]
      congr 1
      simp only [rowStep, hs, pick]
      split_ifs <;> rfl

theorem bestCandidateLoop_pick (keywords : List String) (rows : List Row) :
    ((bestCandidateLoop keywords rows).bestItem, (bestCandidateLoop keywords rows).bestScore) =
      (candidates keywords rows).foldl pick (none, F64.fin (-1)) :=
  rowLoop_pick keywords rows _

/-- The loop ends at a failed scan: the rows after it are neither scanned nor scored. -/
theorem rowLoop_ends_at_failed_scan (keywords : List String) (bad : Row)
    (hbad : bad.scan = none) : ∀ (pre post : List Row) (st : LoopState),
    rowLoop keywords (pre ++ bad :: post) st = rowLoop keywords (pre ++ [bad]) st := by
  intro pre
  induction pre with
  | nil => intro post st; simp [rowLoop, rowStep, hbad]
  | cons row pre ih =>
    intro post st
    simp only [List.cons_append, rowLoop]
    split_ifs
    · exact ih post _
    · rfl

theorem mem_candidates_of_mem_takeWhile (keywords : List String) : ∀ (rows : List Row)
    (row : Row), row ∈ rows.takeWhile (fun r => r.scan.isSome) →
    ∃ item, row.scan = some item ∧
      ((scoreCandidate keywords item row).2.1, (scoreCandidate keywords item row).1) ∈
        candidates keywords rows := by
  intro rows
  induction rows with
  | nil => intro row h; simp at h
  | cons x rows ih =>
    intro row h
    cases hs : x.scan with
    | none => simp [List.takeWhile_cons, hs] at h
    | some item =>
      simp only [List.takeWhile_cons, hs, Option.isSome_some, if_true, List.mem_cons] at h
      rcases h with h | h
      · subst h
        exact ⟨item, hs, by simp [candidates, hs]⟩
      · obtain ⟨it, hit, hmem⟩ := ih row h
        exact ⟨it, hit, by
          simp only [candidates, hs]
          exact List.mem_cons_of_mem _ hmem⟩

/-- The running maximum with a strict comparison ends on the first candidate of maximal
score, or leaves the state alone when no candidate beats the initial score. -/
theorem foldl_pick_spec : ∀ (l : List (OutfitItem × F64)) (b₀ : Option OutfitItem) (s₀ : F64),
    s₀ ≠ F64.nan → (∀ c ∈ l, c.2 ≠ F64.nan) →
    ((∀ c ∈ l, F64.gt c.2 s₀ = false) ∧ l.foldl pick (b₀, s₀) = (b₀, s₀)) ∨
    ∃ (i : Nat) (c : OutfitItem × F64), l[i]? = some c ∧
      l.foldl pick (b₀, s₀) = (some c.1, c.2) ∧ F64.gt c.2 s₀ = true ∧
      (∀ (j : Nat) (d : OutfitItem × F64), l[j]? = some d → F64.ge c.2 d.2 = true) ∧
      (∀ (j : Nat) (d : OutfitItem × F64), j < i → l[j]? = some d →
        F64.gt c.2 d.2 = true) := by
  intro l
  induction l with
  | nil =>
    intro b₀ s₀ _ _
    exact Or.inl ⟨fun c hc => absurd hc (List.not_mem_nil c), rfl⟩
  | cons x l ih =>
    intro b₀ s₀ hs₀ hl
    have hx : x.2 ≠ F64.nan := hl x (List.mem_cons_self _ _)
    have hl' : ∀ c ∈ l, c.2 ≠ F64.nan := fun c hc => hl c (List.mem_cons_of_mem _ hc)
    rw [List.foldl_cons]
    by_cases hgt : F64.gt x.2 s₀ = true
    · have hp : pick (b₀, s₀) x = (some x.1, x.2) := by simp [pick, hgt]
      rw [hp]
      right
      rcases ih (some x.1) x.2 hx hl' with ⟨hnone, heq⟩ | ⟨i, c, hi, heq, hc, hge, hlt⟩
      · refine ⟨0, x, List.getElem?_cons_zero, heq, hgt, ?_, ?_⟩
        · intro j d hj
          cases j with
          | zero =>
            simp only [List.getElem?_cons_zero, Option.some.injEq] at hj
            rw [← hj]
            exact F64.ge_refl hx
          | succ j =>
            simp only [List.getElem?_cons_succ] at hj
            have hd : d ∈ l := List.getElem?_mem hj
            exact F64.ge_of_gt_eq_false (hl' d hd) hx (hnone d hd)
        · intro j d hj
          omega
      · refine ⟨i + 1, c, by rw [List.getElem?_cons_succ]; exact hi, heq, ?_, ?_, ?_⟩
        · exact F64.gt_of_gt_of_ge hc (F64.ge_of_gt hgt)
        · intro j d hj
          cases j with
          | zero =>
            simp only [List.getElem?_cons_zero, Option.some.injEq] at hj
            rw [← hj]
            exact F64.ge_of_gt hc
          | succ j =>
            simp only [List.getElem?_cons_succ] at hj
            exact hge j d hj
        · intro j d hji hj
          cases j with
          | zero =>
            simp only [List.getElem?_cons_zero, Option.some.injEq] at hj
            rw [← hj]
            exact hc
          | succ j =>
            simp only [List.getElem?_cons_succ] at hj
            exact hlt j d (by omega) hj
    · have hgt' : F64.gt x.2 s₀ = false := by simpa using hgt
      have hp : pick (b₀, s₀) x = (b₀, s₀) := by simp [pick, hgt']
      rw [hp]
      rcases ih b₀ s₀ hs₀ hl' with ⟨hnone, heq⟩ | ⟨i, c, hi, heq, hc, hge, hlt⟩
      · left
        refine ⟨?_, heq⟩
        intro c hc
        rcases List.mem_cons.mp hc with hc | hc
        · rw [hc]; exact hgt'
        · exact hnone c hc
      · right
        have hcx : F64.gt c.2 x.2 = true :=
          F64.gt_of_gt_of_ge hc (F64.ge_of_gt_eq_false hx hs₀ hgt')
        refine ⟨i + 1, c, by rw [List.getElem?_cons_succ]; exact hi, heq, hc, ?_, ?_⟩
        · intro j d hj
          cases j with
          | zero =>
            simp only [List.getElem?_cons_zero, Option.some.injEq] at hj
            rw [← hj]
            exact F64.ge_of_gt hcx
          | succ j =>
            simp only [List.getElem?_cons_succ] at hj
            exact hge j d hj
        · intro j d hji hj
          cases j with
          | zero =>
            simp only [List.getElem?_cons_zero, Option.some.injEq] at hj
            rw [← hj]
            exact hcx
          | succ j =>
            simp only [List.getElem?_cons_succ] at hj
            exact hlt j d (by omega) hj


namespace F64

theorem rne_eq {m : ℚ} {N : ℤ} (h₁ : (N : ℚ) - 1 / 2 < m) (h₂ : m < N + 1 / 2) : rne m = N := by
  unfold rne
  simp only
  by_cases hm : (N : ℚ) ≤ m
  · have hf : ⌊m⌋ = N := by
      rw [Int.floor_eq_iff]
      exact ⟨hm, by linarith⟩
    rw [hf, if_pos (by linarith)]
  · have hf : ⌊m⌋ = N - 1 := by
      rw [Int.floor_eq_iff]
      push_cast
      exact ⟨by linarith, by linarith⟩
    rw [hf]
    push_cast
    rw [if_neg (by linarith), if_pos (by linarith)]
    ring

/-- Evaluation of the rounding of a magnitude in the normal range, away from a tie. -/
theorem roundAbs_eval {a : ℚ} (e N : ℤ) (he : -1022 ≤ e) (h₁ : 2 ^ e ≤ a) (h₂ : a < 2 ^ (e + 1))
    (h₃ : (N : ℚ) - 1 / 2 < a / 2 ^ (e - 52)) (h₄ : a / 2 ^ (e - 52) < N + 1 / 2) :
    roundAbs a = N * 2 ^ (e - 52) := by
  have ha : 0 < a := lt_of_lt_of_le (two_zpow_pos e) h₁
  have hlog : Int.log 2 a = e := by
    have := le_log_of_le ha h₁
    have := log_lt_of_lt ha h₂
    omega
  have hk : ulpExp a = e - 52 := by
    unfold ulpExp
    omega
  unfold roundAbs
  rw [hk, rne_eq h₃ h₄]

/-- The `float64` nearest to `0.8`. -/
theorem round_four_fifths : round (4 / 5) = fin (7205759403792794 / 9007199254740992) := by
  have h := roundAbs_eval (a := 4 / 5) (-1) 7205759403792794 (by norm_num) (by norm_num)
    (by norm_num) (by norm_num) (by norm_num)
  unfold round
  rw [if_pos (by norm_num), h, if_pos (by norm_num)]
  norm_num

/-- The `float64` nearest to `0.6`. -/
theorem round_three_fifths : round (3 / 5) = fin (5404319552844595 / 9007199254740992) := by
  have h := roundAbs_eval (a := 3 / 5) (-1) 5404319552844595 (by norm_num) (by norm_num)
    (by norm_num) (by norm_num) (by norm_num)
  unfold round
  rw [if_pos (by norm_num), h, if_pos (by norm_num)]
  norm_num

theorem ge_one_round {q : ℚ} (h : 1 ≤ q) : ge (round q) (fin 1) = true := by
  unfold round
  rw [if_pos (by linarith)]
  split_ifs
  · simpa [ge] using one_le_roundAbs h
  · rfl

theorem ge_zero_round {q : ℚ} (h : 0 ≤ q) : ge (round q) (fin 0) = true := by
  unfold round
  rw [if_pos h]
  split_ifs
  · simpa [ge] using roundAbs_nonneg h
  · rfl

/-- Adding a non-negative value to a value that is at least one leaves it at least one. -/
theorem ge_one_add {x s : F64} (hx : ge x (fin 1) = true) (hs : ge s (fin 0) = true) :
    ge (add x s) (fin 1) = true := by
  cases x <;> cases s <;> simp [ge] at hx hs <;> try rfl
  rename_i a b
  exact ge_one_round (by linarith)

theorem gt_neg_one_of_ge_one {x : F64} (hx : ge x (fin 1) = true) :
    gt x (fin (-1)) = true := by
  cases x <;> simp [ge, gt] at hx ⊢
  linarith

theorem isFloat_one : IsFloat (fin 1) := round_one

theorem isFloat_foldl_add : ∀ (l : List F64) (x : F64), IsFloat x → IsFloat (l.foldl add x)
  | [], _, h => h
  | y :: l, x, _ => isFloat_foldl_add l (add x y) (isFloat_add x y)

theorem ge_one_foldl_add : ∀ (l : List F64) (x : F64), ge x (fin 1) = true →
    (∀ s ∈ l, ge s (fin 0) = true) → ge (l.foldl add x) (fin 1) = true
  | [], _, h, _ => h
  | y :: l, x, h, hl =>
    ge_one_foldl_add l (add x y) (ge_one_add h (hl y (List.mem_cons_self _ _)))
      (fun s hs => hl s (List.mem_cons_of_mem _ hs))

theorem roundAbs_le_five_quarters {a : ℚ} (h₀ : 0 ≤ a) (h : a ≤ 5 / 4) : roundAbs a ≤ 5 / 4 := by
  rcases h₀.eq_or_lt with h0 | hpos
  · rw [← h0, roundAbs_zero]
    norm_num
  · have hk : ulpExp a ≤ -2 :=
      ulpExp_le_of_lt hpos (by norm_num) (lt_of_le_of_lt h (by norm_num))
    have := roundAbs_le_of_le (n := 5) hk (by norm_num; linarith)
    norm_num at this
    linarith

end F64

/-- The rating contribution is never negative and never NaN. -/
theorem ratingBonus_ge_zero (avg : F64) : F64.ge (ratingBonus avg) (F64.fin 0) = true := by
  unfold ratingBonus
  split_ifs with h
  · cases avg with
    | fin a =>
      simp only [F64.gt, decide_eq_true_eq] at h
      exact F64.ge_zero_round (by linarith)
    | posInf => simp [F64.mul, F64.ge]
    | negInf => simp [F64.gt] at h
    | nan => simp [F64.gt] at h
  · simp [F64.ge]

/-- For an average rating between 0 and 5 the rating contribution lies between 0 and 1.25. -/
theorem ratingBonus_bounds {a : ℚ} (h₀ : 0 ≤ a) (h₅ : a ≤ 5) :
    ∃ b : ℚ, ratingBonus (F64.fin a) = F64.fin b ∧ 0 ≤ b ∧ b ≤ 5 / 4 := by
  unfold ratingBonus
  by_cases h : F64.gt (F64.fin a) (F64.fin 0) = true
  · rw [if_pos h]
    have hq₀ : (0 : ℚ) ≤ 1 / 4 * a := by linarith
    have hq : 1 / 4 * a ≤ 5 / 4 := by linarith
    have hr := F64.roundAbs_le_five_quarters hq₀ hq
    refine ⟨F64.roundAbs (1 / 4 * a), ?_, F64.roundAbs_nonneg hq₀, hr⟩
    show F64.round (1 / 4 * a) = _
    unfold F64.round
    rw [if_pos hq₀, if_pos (lt_of_le_of_lt hr (by norm_num))]
  · rw [if_neg h]
    exact ⟨0, rfl, le_refl _, by norm_num⟩

theorem scoreCandidate_score (keywords : List String) (item : OutfitItem) (row : Row) :
    (scoreCandidate keywords item row).1 =
      (if F64.gt (getAvgRating item.ID row.avg).1 (F64.fin 0) then
        F64.add
          (if keywords.length > 0 then
            (match (getImageKeywordScore item.ImageURL keywords row.analyze).1 with
              | some scores => scores.foldl (fun acc e => F64.add acc e.2) (F64.fin 1)
              | none => F64.fin 1)
          else F64.fin 1)
          (F64.mul (F64.fin (1 / 4)) (getAvgRating item.ID row.avg).1)
      else
        (if keywords.length > 0 then
          (match (getImageKeywordScore item.ImageURL keywords row.analyze).1 with
            | some scores => scores.foldl (fun acc e => F64.add acc e.2) (F64.fin 1)
            | none => F64.fin 1)
        else F64.fin 1)) := by
  unfold scoreCandidate
  by_cases hk : keywords.length > 0 <;> simp only [hk, if_true, if_false]

/-- The affinity values the code adds up: none without keywords or after a failed call. -/
theorem affinity_sum (keywords : List String) (item : OutfitItem) (row : Row) :
    (if keywords.length > 0 then
        (match (getImageKeywordScore item.ImageURL keywords row.analyze).1 with
          | some scores => scores.foldl (fun acc e => F64.add acc e.2) (F64.fin 1)
          | none => F64.fin 1)
      else F64.fin 1) =
      (if keywords = [] then ([] : List F64)
        else match row.analyze with
          | AnalyzeReply.scores m => m.map Prod.snd
          | _ => []).foldl F64.add (F64.fin 1) := by
  cases keywords with
  | nil => simp
  | cons k ks =>
    simp only [List.length_cons, gt_iff_lt, Nat.zero_lt_succ, if_true, reduceCtorEq, if_false]
    cases row.analyze with
    | transportError => rfl
    | decodeError => rfl
    | scores m =>
      simp only [getImageKeywordScore]
      rw [List.foldl_map]

theorem scoreCandidate_eq_scoreSpec (keywords : List String) (item : OutfitItem) (row : Row) :
    (scoreCandidate keywords item row).1 = scoreSpec keywords row := by
  rw [scoreCandidate_score, affinity_sum]
  unfold scoreSpec ratingBonus
  simp only
  have havg : (getAvgRating item.ID row.avg).1 =
      (match row.avg with
        | some a => a
        | none => F64.fin 0) := by
    cases row.avg <;> rfl
  rw [havg]
  generalize (match row.avg with
    | some a => a
    | none => F64.fin 0) = avg
  generalize (if keywords = [] then ([] : List F64)
    else match row.analyze with
      | AnalyzeReply.scores m => m.map Prod.snd
      | _ => []) = l
  by_cases h : F64.gt avg (F64.fin 0) = true
  · rw [if_pos h, if_pos h]
  · rw [if_neg h, if_neg h]
    exact (F64.add_zero_of_isFloat (F64.isFloat_foldl_add _ _ F64.isFloat_one)).symm


/-! ## Claims on scoring and selection -/

/-- C3. Whenever a slot is filled, the selected item is the first candidate, in retrieval
order, whose score is maximal: its score is at least every candidate's score and strictly
greater than the score of every earlier candidate. With scores `0.8, 0.8, 0.6` the first
candidate is selected. The candidates are the rows the loop scans and scores (a failed
scan ends the loop); scores are the `float64` values it computes, none of them NaN. -/
theorem first_maximal_candidate_selected :
    (∀ (keywords : List String) (rows : List Row),
      (∀ c ∈ candidates keywords rows, c.2 ≠ F64.nan) →
      ∀ item : OutfitItem, (bestCandidateLoop keywords rows).bestItem = some item →
      ∃ (i : Nat) (c : OutfitItem × F64), (candidates keywords rows)[i]? = some c ∧
        c.1 = item ∧ (bestCandidateLoop keywords rows).bestScore = c.2 ∧
        (∀ (j : Nat) (d : OutfitItem × F64), (candidates keywords rows)[j]? = some d →
          F64.ge c.2 d.2 = true) ∧
        (∀ (j : Nat) (d : OutfitItem × F64), j < i → (candidates keywords rows)[j]? = some d →
          F64.gt c.2 d.2 = true)) ∧
    (∀ (keywords : List String) (r₁ r₂ r₃ : Row) (it₁ it₂ it₃ : OutfitItem),
      r₁.scan = some it₁ → r₂.scan = some it₂ → r₃.scan = some it₃ →
      (scoreCandidate keywords it₁ r₁).1 = F64.round (4 / 5) →
      (scoreCandidate keywords it₂ r₂).1 = F64.round (4 / 5) →
      (scoreCandidate keywords it₃ r₃).1 = F64.round (3 / 5) →
      (bestCandidateLoop keywords [r₁, r₂, r₃]).bestItem =
        some (scoreCandidate keywords it₁ r₁).2.1) := by
  constructor
  · intro keywords rows hnan item hitem
    have hpick := bestCandidateLoop_pick keywords rows
    rcases foldl_pick_spec (candidates keywords rows) none (F64.fin (-1)) (by simp) hnan with
      ⟨_, heq⟩ | ⟨i, c, hi, heq, _, hge, hlt⟩
    · rw [heq] at hpick
      rw [hitem] at hpick
      cases hpick
    · rw [heq, hitem] at hpick
      have h1 : item = c.1 := by
        have := congrArg Prod.fst hpick
        simpa using this
      have h2 : (bestCandidateLoop keywords rows).bestScore = c.2 := congrArg Prod.snd hpick
      exact ⟨i, c, hi, h1.symm, h2, hge, hlt⟩
  · intro keywords r₁ r₂ r₃ it₁ it₂ it₃ h₁ h₂ h₃ s₁ s₂ s₃
    have hpick := bestCandidateLoop_pick keywords [r₁, r₂, r₃]
    have hc : candidates keywords [r₁, r₂, r₃] =
        [((scoreCandidate keywords it₁ r₁).2.1, F64.round (4 / 5)),
         ((scoreCandidate keywords it₂ r₂).2.1, F64.round (4 / 5)),
         ((scoreCandidate keywords it₃ r₃).2.1, F64.round (3 / 5))] := by
      simp [candidates, h₁, h₂, h₃, s₁, s₂, s₃]
    rw [hc, F64.round_four_fifths, F64.round_three_fifths] at hpick
    have hres := congrArg Prod.fst hpick
    simp only [List.foldl_cons, List.foldl_nil, pick, F64.gt] at hres
    norm_num at hres
    exact hres


theorem score_plainRow (id : Int) :
    (scoreCandidate [] (sampleItem id) (plainRow id)).1 = F64.fin 1 := by
  simp [scoreCandidate, plainRow, getAvgRating, F64.gt]

theorem candidates_plainRows :
    candidates [] [plainRow 1, plainRow 2] =
      [(sampleItem 1, F64.fin 1), (sampleItem 2, F64.fin 1)] := by
  simp [candidates, plainRow, scoreCandidate, getAvgRating, F64.gt]

theorem bestItem_plainRows :
    (bestCandidateLoop [] [plainRow 1, plainRow 2]).bestItem = some (sampleItem 1) := by
  have h := congrArg Prod.fst (bestCandidateLoop_pick [] [plainRow 1, plainRow 2])
  rw [candidates_plainRows] at h
  simp only [List.foldl_cons, List.foldl_nil, pick, F64.gt] at h
  norm_num at h
  exact h

/-- The score of a row with the single affinity value `s`, when `1 + s` is a non-negative
point of the binary64 grid. -/
theorem score_affinityRow (id : Int) (s : ℚ) (n j : ℤ) (hq : 0 ≤ 1 + s) (hj : -1074 ≤ j)
    (hlt : 1 + s < 2 ^ (j + 53)) (h : 1 + s = n * 2 ^ j) (hmax : 1 + s < 2 ^ (1024 : ℤ)) :
    (scoreCandidate ["casual"] (sampleItem id) (affinityRow id s)).1 = F64.fin (1 + s) := by
  have hr := F64.round_of_exact n j hq hj hlt h hmax
  simp [scoreCandidate, affinityRow, getAvgRating, getImageKeywordScore, F64.gt, F64.add, hr]

/-- Witness of C3: two candidates of equal score, the first one is kept; and three
candidates whose scores are the `float64` values 0.8, 0.8 and 0.6. -/
theorem first_maximal_candidate_selected_witness :
    (∃ (i : Nat) (c : OutfitItem × F64),
      (candidates [] [plainRow 1, plainRow 2])[i]? = some c ∧ c.1 = sampleItem 1 ∧
        (bestCandidateLoop [] [plainRow 1, plainRow 2]).bestScore = c.2 ∧
        (∀ (j : Nat) (d : OutfitItem × F64),
          (candidates [] [plainRow 1, plainRow 2])[j]? = some d → F64.ge c.2 d.2 = true) ∧
        (∀ (j : Nat) (d : OutfitItem × F64), j < i →
          (candidates [] [plainRow 1, plainRow 2])[j]? = some d → F64.gt c.2 d.2 = true)) ∧
    (bestCandidateLoop ["casual"]
        [affinityRow 1 (-1801439850948198 / 9007199254740992),
         affinityRow 2 (-1801439850948198 / 9007199254740992),
         affinityRow 3 (-3602879701896397 / 9007199254740992)]).bestItem =
      some (scoreCandidate ["casual"] (sampleItem 1)
        (affinityRow 1 (-1801439850948198 / 9007199254740992))).2.1 :=
  ⟨first_maximal_candidate_selected.1 [] [plainRow 1, plainRow 2]
      (by rw [candidates_plainRows]; simp) (sampleItem 1) bestItem_plainRows,
    first_maximal_candidate_selected.2 ["casual"] _ _ _ (sampleItem 1) (sampleItem 2)
      (sampleItem 3) rfl rfl rfl
      (by
        rw [score_affinityRow 1 _ 7205759403792794 (-53) (by norm_num) (by norm_num)
          (by norm_num) (by norm_num) (by norm_num), F64.round_four_fifths]
        norm_num)
      (by
        rw [score_affinityRow 2 _ 7205759403792794 (-53) (by norm_num) (by norm_num)
          (by norm_num) (by norm_num) (by norm_num), F64.round_four_fifths]
        norm_num)
      (by
        rw [score_affinityRow 3 _ 5404319552844595 (-53) (by norm_num) (by norm_num)
          (by norm_num) (by norm_num) (by norm_num), F64.round_three_fifths]
        norm_num)⟩

/-- Two runs of the loop with a row whose scan fails: before any good row the slot stays
empty after one row; between two good rows the first is kept after two rows, though the
third has the higher score. -/
theorem rowLoop_failed_scan_examples :
    (bestCandidateLoop [] [badRow, plainRow 2]).bestItem = none ∧
      (bestCandidateLoop [] [badRow, plainRow 2]).rowCount = 1 ∧
      (bestCandidateLoop [] [plainRow 1, badRow, ratedRow 3 5]).bestItem =
        some (sampleItem 1) ∧
      (bestCandidateLoop [] [plainRow 1, badRow, ratedRow 3 5]).rowCount = 2 := by
  have h1 : (bestCandidateLoop [] [badRow, plainRow 2]) = ⟨none, F64.fin (-1), 1, []⟩ := by
    simp [bestCandidateLoop, rowLoop, rowStep, badRow]
  have h2 : bestCandidateLoop [] [plainRow 1, badRow, ratedRow 3 5] =
      bestCandidateLoop [] [plainRow 1, badRow] :=
    rowLoop_ends_at_failed_scan [] badRow rfl [plainRow 1] [ratedRow 3 5] _
  have h3 := congrArg Prod.fst (bestCandidateLoop_pick [] [plainRow 1, badRow])
  have hc : candidates [] [plainRow 1, badRow] = [(sampleItem 1, F64.fin 1)] := by
    simp [candidates, plainRow, badRow, scoreCandidate, getAvgRating, F64.gt]
  rw [hc] at h3
  simp only [List.foldl_cons, List.foldl_nil, pick, F64.gt] at h3
  norm_num at h3
  refine ⟨by rw [h1], by rw [h1], by rw [h2]; exact h3, ?_⟩
  rw [h2]
  simp [bestCandidateLoop, rowLoop, rowStep, badRow, plainRow]
  split_ifs <;> rfl

/-- Once some scanned candidate scores above the sentinel, the loop ends with an item. -/
theorem foldl_pick_isSome : ∀ (l : List (OutfitItem × F64)) (b : Option OutfitItem) (s : F64),
    (b = none → s = F64.fin (-1)) →
    ((∃ c ∈ l, F64.gt c.2 (F64.fin (-1)) = true) ∨ b.isSome = true) →
    (l.foldl pick (b, s)).1.isSome = true
  | [], b, s, _, h => by
    rcases h with ⟨c, hc, _⟩ | h
    · cases hc
    · exact h
  | x :: l, b, s, hinv, h => by
    rw [List.foldl_cons]
    by_cases hgt : F64.gt x.2 s = true
    · have hp : pick (b, s) x = (some x.1, x.2) := by simp [pick, hgt]
      rw [hp]
      exact foldl_pick_isSome l _ _ (fun hb => by cases hb) (Or.inr rfl)
    · have hp : pick (b, s) x = (b, s) := by simp [pick, hgt]
      rw [hp]
      apply foldl_pick_isSome l b s hinv
      rcases h with ⟨c, hc, hcgt⟩ | h
      · rcases List.mem_cons.mp hc with hcx | hcl
        · right
          cases b with
          | some _ => rfl
          | none =>
            exfalso
            rw [hinv rfl] at hgt
            rw [hcx] at hcgt
            exact hgt hcgt
        · exact Or.inl ⟨c, hcl, hcgt⟩
      · exact Or.inr h

/-- A candidate whose affinity values are all non-negative scores at least `1.0`. -/
theorem score_ge_one (keywords : List String) (item : OutfitItem) (row : Row)
    (hpos : ∀ m, row.analyze = AnalyzeReply.scores m → ∀ e ∈ m, F64.ge e.2 (F64.fin 0) = true) :
    F64.ge (scoreCandidate keywords item row).1 (F64.fin 1) = true := by
  rw [scoreCandidate_eq_scoreSpec]
  unfold scoreSpec
  simp only
  apply F64.ge_one_add _ (ratingBonus_ge_zero _)
  apply F64.ge_one_foldl_add _ _ (by simp [F64.ge])
  intro s hs
  split_ifs at hs with hk
  · cases hs
  · cases ha : row.analyze with
    | transportError => rw [ha] at hs; cases hs
    | decodeError => rw [ha] at hs; cases hs
    | scores m =>
      rw [ha] at hs
      obtain ⟨e, he, rfl⟩ := List.mem_map.mp hs
      exact hpos m ha e he

/-- A selected candidate scores above the sentinel. -/
theorem foldl_pick_gt_sentinel : ∀ (l : List (OutfitItem × F64)) (b : Option OutfitItem)
    (s : F64), (b = none → s = F64.fin (-1)) →
    (b.isSome = true → F64.gt s (F64.fin (-1)) = true) →
    (l.foldl pick (b, s)).1.isSome = true →
    F64.gt (l.foldl pick (b, s)).2 (F64.fin (-1)) = true
  | [], b, s, _, hsome, h => hsome h
  | x :: l, b, s, hnone, hsome, h => by
    rw [List.foldl_cons] at h ⊢
    by_cases hgt : F64.gt x.2 s = true
    · have hp : pick (b, s) x = (some x.1, x.2) := by simp [pick, hgt]
      rw [hp] at h ⊢
      refine foldl_pick_gt_sentinel l _ _ (fun hb => by cases hb) (fun _ => ?_) h
      cases b with
      | none => rw [hnone rfl] at hgt; exact hgt
      | some _ => exact F64.gt_of_gt_of_ge hgt (F64.ge_of_gt (hsome rfl))
    · have hp : pick (b, s) x = (b, s) := by simp [pick, hgt]
      rw [hp] at h ⊢
      exact foldl_pick_gt_sentinel l b s hnone hsome h

/-- C4, as the code has it. The sentinel `-1.0` is below the score of every candidate whose
affinity values are all non-negative, whatever the rating aggregator returns: such a score
is at least `1.0`. A slot is filled as soon as one candidate the loop scans (a row before
any failed scan) scores above `-1.0`, in particular when the affinity values of one are
non-negative; and a selected candidate always scores above `-1.0`. -/
theorem sentinel_below_nonnegative_scores (keywords : List String) (rows : List Row) :
    (∀ (item : OutfitItem) (row : Row),
      (∀ m, row.analyze = AnalyzeReply.scores m → ∀ e ∈ m, F64.ge e.2 (F64.fin 0) = true) →
      F64.ge (scoreCandidate keywords item row).1 (F64.fin 1) = true ∧
        F64.gt (scoreCandidate keywords item row).1 (F64.fin (-1)) = true) ∧
    ((∃ c ∈ candidates keywords rows, F64.gt c.2 (F64.fin (-1)) = true) →
      (bestCandidateLoop keywords rows).bestItem.isSome = true) ∧
    ((∃ row ∈ rows.takeWhile (fun r => r.scan.isSome),
        ∀ m, row.analyze = AnalyzeReply.scores m → ∀ e ∈ m, F64.ge e.2 (F64.fin 0) = true) →
      (bestCandidateLoop keywords rows).bestItem.isSome = true) ∧
    ((bestCandidateLoop keywords rows).bestItem.isSome = true →
      F64.gt (bestCandidateLoop keywords rows).bestScore (F64.fin (-1)) = true) := by
  have hfill : (∃ c ∈ candidates keywords rows, F64.gt c.2 (F64.fin (-1)) = true) →
      (bestCandidateLoop keywords rows).bestItem.isSome = true := by
    intro h
    have hp := congrArg Prod.fst (bestCandidateLoop_pick keywords rows)
    simp only at hp
    rw [hp]
    exact foldl_pick_isSome _ none _ (fun _ => rfl) (Or.inl h)
  refine ⟨fun item row hpos => ?_, hfill, ?_, ?_⟩
  · have h := score_ge_one keywords item row hpos
    exact ⟨h, F64.gt_neg_one_of_ge_one h⟩
  · rintro ⟨row, hrow, hpos⟩
    apply hfill
    obtain ⟨item, _, hmem⟩ := mem_candidates_of_mem_takeWhile keywords rows row hrow
    exact ⟨_, hmem, F64.gt_neg_one_of_ge_one (score_ge_one keywords item row hpos)⟩
  · intro hsome
    have hp := bestCandidateLoop_pick keywords rows
    have h1 := congrArg Prod.fst hp
    have h2 := congrArg Prod.snd hp
    simp only at h1 h2
    rw [h2]
    apply foldl_pick_gt_sentinel _ none _ (fun _ => rfl) (fun h => by cases h)
    rw [← h1]
    exact hsome

/-- Witness of C4 as amended: one candidate with the affinity value `0.5`. -/
theorem sentinel_below_nonnegative_scores_witness :
    (bestCandidateLoop ["casual"] [affinityRow 1 (1 / 2)]).bestItem.isSome = true :=
  (sentinel_below_nonnegative_scores ["casual"] [affinityRow 1 (1 / 2)]).2.2.1
    ⟨affinityRow 1 (1 / 2), by simp [List.takeWhile, affinityRow], by
      intro m hm e he
      simp only [affinityRow, AnalyzeReply.scores.injEq] at hm
      subst hm
      simp only [List.mem_singleton] at he
      subst he
      simp [F64.ge]⟩

/-- C4 as stated fails: a successfully scanned candidate whose only affinity value is
`-2.5` scores `-1.5`, which is not above the sentinel `-1.0`, and the slot stays empty
although a candidate was retrieved. -/
theorem sentinel_not_below_every_score :
    (affinityRow 1 (-(5 / 2))).scan = some (sampleItem 1) ∧
    (scoreCandidate ["casual"] (sampleItem 1) (affinityRow 1 (-(5 / 2)))).1 =
      F64.fin (-(3 / 2)) ∧
    F64.gt (scoreCandidate ["casual"] (sampleItem 1) (affinityRow 1 (-(5 / 2)))).1
      (F64.fin (-1)) = false ∧
    (bestCandidateLoop ["casual"] [affinityRow 1 (-(5 / 2))]).bestItem = none := by
  have hs : (scoreCandidate ["casual"] (sampleItem 1) (affinityRow 1 (-(5 / 2)))).1 =
      F64.fin (-(3 / 2)) := by
    have hr : F64.round (1 + -(5 / 2)) = F64.fin (-(3 / 2)) := by
      have : (1 : ℚ) + -(5 / 2) = -(3 / 2) := by norm_num
      rw [this]
      exact F64.round_neg_three_halves
    simp [scoreCandidate, affinityRow, getAvgRating, getImageKeywordScore, F64.gt, F64.add, hr]
  refine ⟨rfl, hs, ?_, ?_⟩
  · rw [hs]
    simp [F64.gt]
    norm_num
  · have hp := congrArg Prod.fst (bestCandidateLoop_pick ["casual"] [affinityRow 1 (-(5 / 2))])
    have hc : candidates ["casual"] [affinityRow 1 (-(5 / 2))] =
        [((scoreCandidate ["casual"] (sampleItem 1) (affinityRow 1 (-(5 / 2)))).2.1,
          F64.fin (-(3 / 2)))] := by
      simp [candidates, affinityRow, ← hs]
    rw [hc] at hp
    simp only [List.foldl_cons, List.foldl_nil, pick, F64.gt] at hp
    norm_num at hp
    exact hp


theorem foldl_add_zeros : ∀ (l : List F64), (∀ s ∈ l, s = F64.fin 0) →
    l.foldl F64.add (F64.fin 1) = F64.fin 1
  | [], _ => rfl
  | s :: l, h => by
    rw [List.foldl_cons, h s (List.mem_cons_self _ _),
      F64.add_zero_of_isFloat F64.isFloat_one]
    exact foldl_add_zeros l fun t ht => h t (List.mem_cons_of_mem _ ht)

/-- C5. The score the loop computes for a candidate is `1.0`, plus the affinity values
returned by the scorer (nothing when no keyword was requested or the call failed), plus
`0.25 * avg` when `avg > 0` (else zero), in `float64` arithmetic from left to right. With
an average rating of `5.0` and zero affinity the score is exactly `2.25`; and for an
average rating between 0 and 5 the rating contribution lies between 0 and 1.25. -/
theorem score_formula :
    (∀ (keywords : List String) (item : OutfitItem) (row : Row),
      (scoreCandidate keywords item row).1 = scoreSpec keywords row) ∧
    (∀ (keywords : List String) (item : OutfitItem) (row : Row),
      row.avg = some (F64.fin 5) →
      (keywords = [] ∨ row.analyze = AnalyzeReply.transportError ∨
        row.analyze = AnalyzeReply.decodeError ∨
        ∃ m, row.analyze = AnalyzeReply.scores m ∧ ∀ e ∈ m, e.2 = F64.fin 0) →
      (scoreCandidate keywords item row).1 = F64.fin (9 / 4)) ∧
    (∀ a : ℚ, 0 ≤ a → a ≤ 5 →
      ∃ b : ℚ, ratingBonus (F64.fin a) = F64.fin b ∧ 0 ≤ b ∧ b ≤ 5 / 4) := by
  refine ⟨scoreCandidate_eq_scoreSpec, ?_, fun a h₀ h₅ => ratingBonus_bounds h₀ h₅⟩
  intro keywords item row havg haff
  rw [scoreCandidate_eq_scoreSpec]
  unfold scoreSpec
  simp only [havg]
  have hb : ratingBonus (F64.fin 5) = F64.fin (5 / 4) := by
    unfold ratingBonus
    rw [if_pos (by simp [F64.gt])]
    show F64.round (1 / 4 * 5) = _
    have : (1 : ℚ) / 4 * 5 = 5 / 4 := by norm_num
    rw [this]
    exact F64.round_five_quarters
  have hsum : (if keywords = [] then ([] : List F64)
      else match row.analyze with
        | AnalyzeReply.scores m => m.map Prod.snd
        | _ => []).foldl F64.add (F64.fin 1) = F64.fin 1 := by
    apply foldl_add_zeros
    intro s hs
    split_ifs at hs with hk
    · cases hs
    · rcases haff with h | h | h | ⟨m, hm, hz⟩
      · exact absurd h hk
      · rw [h] at hs; cases hs
      · rw [h] at hs; cases hs
      · rw [hm] at hs
        obtain ⟨e, he, rfl⟩ := List.mem_map.mp hs
        exact hz e he
  rw [hsum, hb]
  show F64.round (1 + 5 / 4) = _
  have : (1 : ℚ) + 5 / 4 = 9 / 4 := by norm_num
  rw [this]
  exact F64.round_nine_quarters

/-- Witness of C5: a candidate rated `5.0` on average, without keywords, scores `2.25`,
and the rating contribution of the average `5.0` is a value between 0 and 1.25. -/
theorem score_formula_witness :
    (scoreCandidate [] (sampleItem 1)
        ⟨some (sampleItem 1), AnalyzeReply.transportError, some (F64.fin 5)⟩).1 =
      F64.fin (9 / 4) ∧
    ∃ b : ℚ, ratingBonus (F64.fin 5) = F64.fin b ∧ 0 ≤ b ∧ b ≤ 5 / 4 :=
  ⟨score_formula.2.1 [] (sampleItem 1) _ rfl (Or.inl rfl),
    score_formula.2.2 5 (by norm_num) (by norm_num)⟩


/-! ## Rating submission -/

theorem insertLoop_ok (w : RateWorld) (r : RatingRequest) : ∀ (items : List (String × Int))
    (n : Nat) (pending : List RatingRow) (calls : List Call),
    (∀ i, i < items.length → w.execOk (n + i) = true) →
    (insertLoop w r n items pending calls).1 = some (pending ++ items.map (ratingRow r)) := by
  intro items
  induction items with
  | nil => intro n pending calls _; simp [insertLoop]
  | cons e rest ih =>
    intro n pending calls h
    have h0 : w.execOk n = true := by simpa using h 0 (by simp)
    simp only [insertLoop, h0, if_true]
    rw [ih (n + 1) _ _ (fun i hi => by
      have := h (i + 1) (by simpa using hi)
      rwa [show n + (i + 1) = n + 1 + i by omega] at this)]
    simp [ratingRow]

theorem insertLoop_fail (w : RateWorld) (r : RatingRequest) : ∀ (items : List (String × Int))
    (n : Nat) (pending : List RatingRow) (calls : List Call),
    (∃ i, i < items.length ∧ w.execOk (n + i) = false) →
    (insertLoop w r n items pending calls).1 = none := by
  intro items
  induction items with
  | nil =>
    intro n pending calls h
    obtain ⟨i, hi, _⟩ := h
    simp at hi
  | cons e rest ih =>
    intro n pending calls h
    obtain ⟨i, hi, hf⟩ := h
    by_cases h0 : w.execOk n = true
    · simp only [insertLoop, h0, if_true]
      apply ih
      cases i with
      | zero => rw [Nat.add_zero, h0] at hf; cases hf
      | succ i =>
        refine ⟨i, by simpa using hi, ?_⟩
        rwa [show n + (i + 1) = n + 1 + i by omega] at hf
    · simp [insertLoop, h0]

/-- C7. A rating submission is all or nothing. A rating outside `1..5` is answered with
the validation error before any transaction is opened and without any write. Otherwise,
when the transaction opens and every insert and the commit succeed, the table gains
exactly one row `(outfit_id, clothing_id, rating, user_id)` for each entry of the items
map; and when opening the transaction, an insert or the commit fails, the table is left
as it was. -/
theorem rating_all_or_nothing (r : RatingRequest) (w : RateWorld) (store : List RatingRow) :
    ((r.Rating < 1 ∨ r.Rating > 5) →
      rateHandler (some r) w store =
        (RateResult.badRequest "rating must be 1..5", store, [])) ∧
    (1 ≤ r.Rating → r.Rating ≤ 5 → w.beginOk = true →
      (∀ i, i < r.Items.length → w.execOk i = true) → w.commitOk = true →
      (rateHandler (some r) w store).1 = RateResult.ok ∧
        (rateHandler (some r) w store).2.1 = store ++ r.Items.map (ratingRow r) ∧
        (rateHandler (some r) w store).2.1.length = store.length + r.Items.length) ∧
    (1 ≤ r.Rating → r.Rating ≤ 5 →
      (w.beginOk = false ∨ (∃ i, i < r.Items.length ∧ w.execOk i = false) ∨
        w.commitOk = false) →
      (rateHandler (some r) w store).1 = RateResult.dbError ∧
        (rateHandler (some r) w store).2.1 = store) := by
  refine ⟨?_, ?_, ?_⟩
  · intro h
    simp [rateHandler, h]
  · intro h₁ h₅ hb he hc
    have hv : ¬ (r.Rating < 1 ∨ r.Rating > 5) := by omega
    have hl := insertLoop_ok w r r.Items 0 [] [Call.txBegin] (fun i hi => by simpa using he i hi)
    simp only [rateHandler, hv, if_false, hb]
    cases hloop : insertLoop w r 0 r.Items [] [Call.txBegin] with
    | mk res calls =>
      rw [hloop] at hl
      simp only at hl
      subst hl
      simp [hc]
  · intro h₁ h₅ hfail
    have hv : ¬ (r.Rating < 1 ∨ r.Rating > 5) := by omega
    simp only [rateHandler, hv, if_false]
    by_cases hb : w.beginOk = false
    · simp [hb]
    · have hb' : w.beginOk = true := by simpa using hb
      simp only [hb']
      cases hloop : insertLoop w r 0 r.Items [] [Call.txBegin] with
      | mk res calls =>
        cases res with
        | none => simp
        | some pending =>
          rcases hfail with h | h | h
          · rw [hb'] at h; cases h
          · have := insertLoop_fail w r r.Items 0 [] [Call.txBegin]
              (by obtain ⟨i, hi, hf⟩ := h; exact ⟨i, hi, by simpa using hf⟩)
            rw [hloop] at this
            cases this
          · simp [h]

/-- Witness of C7: rating 6 is rejected without a call; a valid rating of three garments
adds three rows; and a failure of the second insert leaves the table as it was. -/
theorem rating_all_or_nothing_witness :
    rateHandler (some (sampleRating 6)) (sampleRateWorld none) [] =
      (RateResult.badRequest "rating must be 1..5", [], []) ∧
    ((rateHandler (some (sampleRating 4)) (sampleRateWorld none) []).1 = RateResult.ok ∧
      (rateHandler (some (sampleRating 4)) (sampleRateWorld none) []).2.1 =
        [] ++ (sampleRating 4).Items.map (ratingRow (sampleRating 4)) ∧
      (rateHandler (some (sampleRating 4)) (sampleRateWorld none) []).2.1.length =
        ([] : List RatingRow).length + (sampleRating 4).Items.length) ∧
    ((rateHandler (some (sampleRating 4)) (sampleRateWorld (some 1)) []).1 =
        RateResult.dbError ∧
      (rateHandler (some (sampleRating 4)) (sampleRateWorld (some 1)) []).2.1 = []) :=
  ⟨(rating_all_or_nothing (sampleRating 6) (sampleRateWorld none) []).1 (Or.inr (by decide)),
    (rating_all_or_nothing (sampleRating 4) (sampleRateWorld none) []).2.1 (by decide)
      (by decide) rfl (fun i _ => by simp [sampleRateWorld]) rfl,
    (rating_all_or_nothing (sampleRating 4) (sampleRateWorld (some 1)) []).2.2 (by decide)
      (by decide) (Or.inr (Or.inl ⟨1, by decide, by simp [sampleRateWorld]⟩))⟩

/-! ## The recommendation handler -/

/-- C10. A request whose occasion is empty is answered `400`, "Occasion is required",
before anything is composed: no call leaves the process (no weather call, no catalog
query, no scorer call, no rating query). A request with an occasion is never answered
with this validation error. -/
theorem empty_occasion_rejected (req : RecommendationRequest) (w : World)
    (order : GoMap String) :
    (req.Occasion = "" →
      getRecommendation (some req) w order =
        (HandlerResult.status 400 "Occasion is required", [])) ∧
    (req.Occasion ≠ "" →
      (getRecommendation (some req) w order).1 ≠
        HandlerResult.status 400 "Occasion is required") := by
  constructor
  · intro h
    simp [getRecommendation, h]
  · intro h
    simp only [getRecommendation, h, if_false]
    cases hw : fetchWeather "London" w with
    | mk out calls =>
      cases out with
      | panic msg => simp
      | ret a =>
        obtain ⟨weather, err⟩ := a
        simp

/-- Witness of C10: the empty occasion in a world whose weather service would answer. -/
theorem empty_occasion_rejected_witness :
    getRecommendation (some (sampleRequest "")) emptyJsonWorld slots =
        (HandlerResult.status 400 "Occasion is required", []) ∧
      (getRecommendation (some (sampleRequest "party"))
          { emptyJsonWorld with apiKey := "" } slots).1 ≠
        HandlerResult.status 400 "Occasion is required" :=
  ⟨(empty_occasion_rejected (sampleRequest "") emptyJsonWorld slots).1 rfl,
    (empty_occasion_rejected (sampleRequest "party") _ slots).2 (by decide)⟩

/-! ## Weather -/

/-- Failures that `fetchWeather` reports as an error: the key is missing, the transport
fails, the status is not 200, the body is not JSON, or it is JSON of another kind than
an object or null. The handler then composes the outfit with the weather "Unknown". -/
theorem weather_error_degrades (req : RecommendationRequest) (w : World) (order : GoMap String)
    (hocc : req.Occasion ≠ "")
    (hfail : w.apiKey = "" ∨
      (∀ url, w.httpGet url = none ∨ ∃ resp, w.httpGet url = some resp ∧
        (resp.status ≠ 200 ∨ resp.json = none ∨ (∃ b, resp.json = some (JsonValue.bool b)) ∨
          (∃ x, resp.json = some (JsonValue.number x)) ∨
          (∃ s, resp.json = some (JsonValue.string s)) ∨
          (∃ xs, resp.json = some (JsonValue.array xs))))) :
    ∃ calls, getRecommendation (some req) w order =
      (HandlerResult.json (generateAIRecommendation req "Unknown" w order).1, calls) := by
  simp only [getRecommendation, hocc, if_false]
  by_cases hk : w.apiKey = ""
  · simp [fetchWeather, hk]
  · rcases hfail with h | h
    · exact absurd h hk
    · simp only [fetchWeather, hk, if_false]
      rcases h (weatherURL "London" w.apiKey) with h | ⟨resp, hr, h⟩
      · simp [h]
      · rw [hr]
        by_cases hs : resp.status = 200
        · rcases h with h | h | ⟨b, h⟩ | ⟨x, h⟩ | ⟨s, h⟩ | ⟨xs, h⟩
          · exact absurd hs h
          all_goals simp [hs, h]
        · simp [hs]

/-- C6 fails on a well-formed response that lacks the expected fields: with an API key
set and the answer `200` with body `{}`, the unchecked type assertion on
`data["weather"]` panics, and the handler returns no outfit. -/
theorem weather_missing_field_panics :
    fetchWeather "London" emptyJsonWorld =
      (Outcome.panic "interface conversion: not a slice",
        [Call.httpGet
          "https://api.openweathermap.org/data/2.5/weather?q=London&appid=k&units=metric"]) ∧
    getRecommendation (some (sampleRequest "party")) emptyJsonWorld slots =
      (HandlerResult.panic "interface conversion: not a slice",
        [Call.httpGet
          "https://api.openweathermap.org/data/2.5/weather?q=London&appid=k&units=metric"]) := by
  constructor
  · rfl
  · rfl


/-! ## Composition of the outfit -/

theorem mapGet_mapSet {β : Type} (m : GoMap β) (k k' : String) (v : β) :
    mapGet (mapSet m k v) k' = if k = k' then some v else mapGet m k' := by
  induction m with
  | nil =>
    simp only [mapSet, mapGet_cons, mapGet_nil]
  | cons e m ih =>
    simp only [mapSet]
    by_cases hek : e.1 = k
    · have hb : (e.1 == k) = true := by simpa using hek
      rw [if_pos hb, mapGet_cons, mapGet_cons]
      simp only
      by_cases hkk : k = k'
      · simp [hkk]
      · have : ¬ e.1 = k' := fun h => hkk (hek ▸ h)
        simp [hkk, this]
    · have hb : ¬ (e.1 == k) = true := by simpa using hek
      rw [if_neg hb, mapGet_cons, mapGet_cons, ih]
      by_cases hkk : k = k'
      · have : ¬ e.1 = k' := fun h => hek (h.trans hkk.symm)
        simp [hkk, this]
      · simp [hkk]

theorem mem_mapSet {β : Type} {m : GoMap β} {k : String} {v : β} {e : String × β}
    (h : e ∈ mapSet m k v) : e = (k, v) ∨ e ∈ m := by
  induction m with
  | nil =>
    simp only [mapSet, List.mem_singleton] at h
    exact Or.inl h
  | cons x m ih =>
    simp only [mapSet] at h
    split_ifs at h
    · rcases List.mem_cons.mp h with h | h
      · exact Or.inl h
      · exact Or.inr (List.mem_cons_of_mem _ h)
    · rcases List.mem_cons.mp h with h | h
      · exact Or.inr (h ▸ List.mem_cons_self _ _)
      · rcases ih h with h | h
        · exact Or.inl h
        · exact Or.inr (List.mem_cons_of_mem _ h)

theorem mapGet_isSome_of_mem_mapKeys {β : Type} {m : GoMap β} {k : String}
    (h : k ∈ mapKeys m) : mapGet m k ≠ none := by
  induction m with
  | nil => cases h
  | cons e m ih =>
    rw [mapGet_cons]
    by_cases hk : e.1 = k
    · simp [hk]
    · rw [if_neg hk]
      simp only [mapKeys, List.map_cons, List.mem_cons] at h
      rcases h with h | h
      · exact absurd h.symm hk
      · exact ih h

theorem processSlot_fst (req : RecommendationRequest) (w : World)
    (acc : GoMap (Option OutfitItem) × List Call) (slot category : String) :
    (processSlot req w acc slot category).1 =
      match slotOutcome req w category with
      | some it => mapSet acc.1 slot (some it)
      | none => acc.1 := by
  unfold processSlot slotOutcome
  simp only
  cases w.query (buildQuery req category).1 (buildQuery req category).2 with
  | none => rfl
  | some rows => rfl

/-- After the slot loop, the entry of a slot is the item selected for it, and the other
entries are those the map had before. -/
theorem mapGet_foldl_processSlot (req : RecommendationRequest) (w : World) :
    ∀ (order : GoMap String) (acc : GoMap (Option OutfitItem) × List Call) (k : String),
    (mapKeys order).Nodup →
    mapGet (order.foldl (fun a e => processSlot req w a e.1 e.2) acc).1 k =
      match (mapGet order k).bind (slotOutcome req w) with
      | some it => some (some it)
      | none => mapGet acc.1 k := by
  intro order
  induction order with
  | nil => intro acc k _; rfl
  | cons e order ih =>
    intro acc k hnd
    simp only [mapKeys, List.map_cons, List.nodup_cons] at hnd
    rw [List.foldl_cons, ih _ k hnd.2, mapGet_cons, processSlot_fst]
    by_cases hek : e.1 = k
    · have hnone : mapGet order k = none := mapGet_eq_none (hek ▸ hnd.1)
      rw [hnone, if_pos hek]
      show (match (none : Option OutfitItem) with
        | some it => some (some it)
        | none => _) = (match slotOutcome req w e.2 with
        | some it => some (some it)
        | none => mapGet acc.1 k)
      cases slotOutcome req w e.2 with
      | none => rfl
      | some it => simp [mapGet_mapSet, hek]
    · rw [if_neg hek]
      cases (mapGet order k).bind (slotOutcome req w) with
      | some it => rfl
      | none =>
        show mapGet _ k = mapGet acc.1 k
        cases slotOutcome req w e.2 with
        | none => rfl
        | some it => simp [mapGet_mapSet, hek]

theorem values_foldl_processSlot (req : RecommendationRequest) (w : World) :
    ∀ (order : GoMap String) (acc : GoMap (Option OutfitItem) × List Call)
      (e : String × Option OutfitItem),
    e ∈ (order.foldl (fun a x => processSlot req w a x.1 x.2) acc).1 →
    e ∈ acc.1 ∨ (e.1 ∈ mapKeys order ∧ e.2 ≠ none) := by
  intro order
  induction order with
  | nil => intro acc e h; exact Or.inl h
  | cons x order ih =>
    intro acc e h
    rw [List.foldl_cons] at h
    rcases ih _ e h with h | h
    · rw [processSlot_fst] at h
      cases ho : slotOutcome req w x.2 with
      | none =>
        rw [ho] at h
        exact Or.inl h
      | some it =>
        rw [ho] at h
        rcases mem_mapSet h with h | h
        · right
          rw [h]
          exact ⟨List.mem_cons_self _ _, by simp⟩
        · exact Or.inl h
    · exact Or.inr ⟨List.mem_cons_of_mem _ h.1, h.2⟩

theorem calls_foldl_processSlot (req : RecommendationRequest) (w : World) :
    ∀ (order : GoMap String) (acc : GoMap (Option OutfitItem) × List Call) (c : Call),
    (c ∈ acc.2 ∨ ∃ e ∈ order, c = Call.query (buildQuery req e.2).1 (buildQuery req e.2).2) →
    c ∈ (order.foldl (fun a x => processSlot req w a x.1 x.2) acc).2 := by
  intro order
  induction order with
  | nil =>
    intro acc c h
    rcases h with h | ⟨e, he, _⟩
    · exact h
    · cases he
  | cons x order ih =>
    intro acc c h
    rw [List.foldl_cons]
    apply ih
    have hq : Call.query (buildQuery req x.2).1 (buildQuery req x.2).2 ∈
        (processSlot req w acc x.1 x.2).2 := by
      unfold processSlot
      simp only
      cases w.query (buildQuery req x.2).1 (buildQuery req x.2).2 <;> simp
    have hacc : ∀ c, c ∈ acc.2 → c ∈ (processSlot req w acc x.1 x.2).2 := by
      intro c hc
      unfold processSlot
      simp only
      cases w.query (buildQuery req x.2).1 (buildQuery req x.2).2 <;> simp [hc]
    rcases h with h | ⟨e, he, hce⟩
    · exact Or.inl (hacc c h)
    · rcases List.mem_cons.mp he with he | he
      · left
        rw [hce, he]
        exact hq
      · exact Or.inr ⟨e, he, hce⟩

theorem slotOutcome_none_of_no_candidate (req : RecommendationRequest) (w : World)
    (category : String)
    (h : w.query (buildQuery req category).1 (buildQuery req category).2 = none ∨
      w.query (buildQuery req category).1 (buildQuery req category).2 = some []) :
    slotOutcome req w category = none := by
  unfold slotOutcome
  rcases h with h | h
  · rw [h]
  · rw [h]
    rfl

theorem slots_nodup : (mapKeys slots).Nodup := by decide

/-- C8. Whatever the enumeration order of the slot table: a slot whose catalog query fails
or returns no candidate has no entry in the outfit, nothing is raised (the function
returns its response), and every slot is still queried and filled from its own rows
alone; the keys of the items map are among the five slots and no key maps to nil; and
when no slot is filled the response carries the empty map and its identifier. -/
theorem unfilled_slots_are_omitted (req : RecommendationRequest) (weather : String) (w : World)
    (order : GoMap String) (horder : order.Perm slots) :
    (∀ slot category, (slot, category) ∈ slots →
      (w.query (buildQuery req category).1 (buildQuery req category).2 = none ∨
        w.query (buildQuery req category).1 (buildQuery req category).2 = some []) →
      slot ∉ mapKeys (generateAIRecommendation req weather w order).1.Items) ∧
    (∀ slot category, (slot, category) ∈ slots →
      mapGet (generateAIRecommendation req weather w order).1.Items slot =
          (slotOutcome req w category).map some ∧
        Call.query (buildQuery req category).1 (buildQuery req category).2 ∈
          (generateAIRecommendation req weather w order).2) ∧
    (∀ e ∈ (generateAIRecommendation req weather w order).1.Items,
      e.1 ∈ mapKeys slots ∧ e.2 ≠ none) ∧
    ((∀ slot category, (slot, category) ∈ slots → slotOutcome req w category = none) →
      (generateAIRecommendation req weather w order).1 =
        ⟨generateOutfitID [], weather, req.Occasion, []⟩) := by
  have hnd : (mapKeys order).Nodup :=
    (horder.map Prod.fst : (mapKeys order).Perm (mapKeys slots)).nodup_iff.mpr slots_nodup
  have hget : ∀ slot category, (slot, category) ∈ slots →
      mapGet (generateAIRecommendation req weather w order).1.Items slot =
        (slotOutcome req w category).map some := by
    intro slot category hmem
    have h := mapGet_foldl_processSlot req w order ([], []) slot hnd
    have ho : mapGet order slot = some category :=
      mapGet_of_mem hnd (horder.mem_iff.mpr hmem)
    rw [ho] at h
    show mapGet (order.foldl (fun a e => processSlot req w a e.1 e.2) ([], [])).1 slot = _
    rw [h]
    show (match slotOutcome req w category with
      | some it => some (some it)
      | none => mapGet [] slot) = _
    cases slotOutcome req w category <;> rfl
  refine ⟨?_, ?_, ?_, ?_⟩
  · intro slot category hmem hq hin
    have h := hget slot category hmem
    rw [slotOutcome_none_of_no_candidate req w category hq] at h
    exact mapGet_isSome_of_mem_mapKeys hin h
  · intro slot category hmem
    refine ⟨hget slot category hmem, ?_⟩
    exact calls_foldl_processSlot req w order ([], []) _
      (Or.inr ⟨(slot, category), horder.mem_iff.mpr hmem, rfl⟩)
  · intro e he
    rcases values_foldl_processSlot req w order ([], []) e he with h | h
    · cases h
    · exact ⟨(horder.map Prod.fst : (mapKeys order).Perm (mapKeys slots)).mem_iff.mp h.1, h.2⟩
  · intro hall
    have hfold : ∀ (l : GoMap String) (acc : GoMap (Option OutfitItem) × List Call),
        (∀ e ∈ l, slotOutcome req w e.2 = none) →
        (l.foldl (fun a e => processSlot req w a e.1 e.2) acc).1 = acc.1 := by
      intro l
      induction l with
      | nil => intro acc _; rfl
      | cons x l ih =>
        intro acc hl
        rw [List.foldl_cons, ih _ (fun e he => hl e (List.mem_cons_of_mem _ he)),
          processSlot_fst, hl x (List.mem_cons_self _ _)]
    have h := hfold order ([], []) (fun e he => hall e.1 e.2 (horder.mem_iff.mp he))
    unfold generateAIRecommendation
    simp only
    rw [h]

/-- Witness of C8: the catalog fails for `dress`, is empty for three slots and has one
row for `top`; the outfit holds `top` alone. -/
theorem unfilled_slots_are_omitted_witness :
    "dress" ∉ mapKeys (generateAIRecommendation (sampleRequest "party") "Unknown" topOnlyWorld
        slots).1.Items ∧
      "bottom" ∉ mapKeys (generateAIRecommendation (sampleRequest "party") "Unknown"
        topOnlyWorld slots).1.Items ∧
      mapGet (generateAIRecommendation (sampleRequest "party") "Unknown" topOnlyWorld
        slots).1.Items "top" = (slotOutcome (sampleRequest "party") topOnlyWorld "top").map some :=
  ⟨(unfilled_slots_are_omitted (sampleRequest "party") "Unknown" topOnlyWorld slots
      (List.Perm.refl _)).1 "dress" "dress" (by decide) (Or.inl rfl),
    (unfilled_slots_are_omitted (sampleRequest "party") "Unknown" topOnlyWorld slots
      (List.Perm.refl _)).1 "bottom" "bottom" (by decide) (Or.inr rfl),
    ((unfilled_slots_are_omitted (sampleRequest "party") "Unknown" topOnlyWorld slots
      (List.Perm.refl _)).2.1 "top" "top" (by decide)).1⟩


/-! ## Witnesses for the identifier claims, and the absence of NaN scores -/

/-- Witness of C1: the two enumerations of an outfit with a top and a bottom. -/
theorem generateOutfitID_enumeration_invariant_witness :
    generateOutfitID [("top", some (sampleItem 1)), ("bottom", some (sampleItem 2))] =
      generateOutfitID [("bottom", some (sampleItem 2)), ("top", some (sampleItem 1))] :=
  generateOutfitID_enumeration_invariant _ _ (by decide) (List.Perm.swap _ _ _)

/-- Witness of C2: the same slot with two different garments. -/
theorem generateOutfitID_distinct_witness :
    outfitIDData [("top", some (sampleItem 1))] ≠ outfitIDData [("top", some (sampleItem 2))] ∧
      (SHA256.Sum256 (utf8Bytes (outfitIDData [("top", some (sampleItem 1))])) ≠
          SHA256.Sum256 (utf8Bytes (outfitIDData [("top", some (sampleItem 2))])) →
        generateOutfitID [("top", some (sampleItem 1))] ≠
          generateOutfitID [("top", some (sampleItem 2))]) :=
  generateOutfitID_distinct [("top", some (sampleItem 1))] [("top", some (sampleItem 2))]
    (by decide) (by decide) (by decide) (by decide) ⟨("top", 1), by decide⟩

/-- Witness of C9: an outfit with a top and a bottom. -/
theorem generateOutfitID_eq_spec_witness :
    generateOutfitID [("top", some (sampleItem 1)), ("bottom", some (sampleItem 2))] =
      outfitIdentifierSpec
        (filledIDs [("top", some (sampleItem 1)), ("bottom", some (sampleItem 2))]) :=
  generateOutfitID_eq_spec.1 _ (by decide)

theorem foldl_add_ne_nan : ∀ (l : List F64) (x : F64), x ≠ F64.nan →
    (∀ s ∈ l, ∃ q, s = F64.fin q) → l.foldl F64.add x ≠ F64.nan
  | [], _, h, _ => h
  | s :: l, x, h, hl => by
    rw [List.foldl_cons]
    apply foldl_add_ne_nan l _ _ (fun t ht => hl t (List.mem_cons_of_mem _ ht))
    obtain ⟨q, rfl⟩ := hl s (List.mem_cons_self _ _)
    cases x with
    | fin a =>
      show F64.round (a + q) ≠ F64.nan
      unfold F64.round
      split_ifs <;> simp
    | posInf => simp [F64.add]
    | negInf => simp [F64.add]
    | nan => exact absurd rfl h

/-- No score is NaN when the affinity values are finite, as decoded JSON numbers are, and
the average rating is absent or a finite value of at most 5. -/
theorem score_ne_nan (keywords : List String) (item : OutfitItem) (row : Row)
    (haff : ∀ m, row.analyze = AnalyzeReply.scores m → ∀ e ∈ m, ∃ q, e.2 = F64.fin q)
    (havg : ∀ x, row.avg = some x → ∃ a : ℚ, x = F64.fin a ∧ a ≤ 5) :
    (scoreCandidate keywords item row).1 ≠ F64.nan := by
  rw [scoreCandidate_eq_scoreSpec]
  unfold scoreSpec
  simp only
  have hsum : (if keywords = [] then ([] : List F64)
      else match row.analyze with
        | AnalyzeReply.scores m => m.map Prod.snd
        | _ => []).foldl F64.add (F64.fin 1) ≠ F64.nan := by
    apply foldl_add_ne_nan _ _ (by simp)
    intro s hs
    split_ifs at hs with hk
    · cases hs
    · cases ha : row.analyze with
      | transportError => rw [ha] at hs; cases hs
      | decodeError => rw [ha] at hs; cases hs
      | scores m =>
        rw [ha] at hs
        obtain ⟨e, he, rfl⟩ := List.mem_map.mp hs
        exact haff m ha e he
  have hbonus : ∃ b : ℚ, ratingBonus (match row.avg with
      | some a => a
      | none => F64.fin 0) = F64.fin b := by
    cases hr : row.avg with
    | none =>
      obtain ⟨b, hb, _⟩ := ratingBonus_bounds (a := 0) (le_refl _) (by norm_num)
      exact ⟨b, hb⟩
    | some x =>
      obtain ⟨a, rfl, ha⟩ := havg x hr
      by_cases h0 : 0 ≤ a
      · obtain ⟨b, hb, _⟩ := ratingBonus_bounds h0 ha
        exact ⟨b, hb⟩
      · refine ⟨0, ?_⟩
        unfold ratingBonus
        rw [if_neg]
        simp only [F64.gt, decide_eq_true_eq]
        linarith
  obtain ⟨b, hb⟩ := hbonus
  rw [hb]
  exact foldl_add_ne_nan [F64.fin b] _ hsum (fun s hs => ⟨b, by simpa using hs⟩)

end Wardrobe
